import Mathlib

/-!
Verification of the structured-data ingestion pipeline of the
Scientific-Poster-Designer repository.

The repository contains two generations of the pipeline:

* `src/services/geminiService.ts` — counter-based `extractBalancedJSON`,
  fingerprint (title+content) deduplicating `sanitizeData`;
* the copy embedded in `src/hooks/useHistory.ts` — stack-based
  `extractBalancedJSON`, default-filling and title-merging `sanitizeData`.

Both are embedded below, in namespaces `GeminiService` and `UseHistory`.
The generic undo/redo history utility of `src/hooks/useHistory.ts` is
embedded as well.

Modelling conventions:

* JavaScript strings are Lean `String`s (lists of characters); the few
  non-ASCII concerns (UTF-16 surrogates in `\u` escapes) do not affect any
  property proved here.
* JSON numbers are kept as their source lexeme (a `String`); no arithmetic
  is ever performed on them by the code under verification.
* `Math.random().toString(36).substr(2, 9)` + `Date.now()` (the id
  generator) is modelled by an explicit supply `gen : Nat → String` of
  generated fragments, consumed left to right.
* A thrown JavaScript exception is modelled by the `Except` error channel.
-/

/-! ## JSON values and a strict parser (model of `JSON.parse`) -/

/-- A parsed JSON value.  Numbers keep their lexeme. -/
inductive JVal where
  | jnull : JVal
  | jbool (b : Bool) : JVal
  | jnum (lit : String) : JVal
  | jstr (s : String) : JVal
  | jarr (elems : List JVal) : JVal
  | jobj (fields : List (String × JVal)) : JVal

/-- JSON whitespace, exactly the four characters `JSON.parse` skips. -/
def jsonWS (c : Char) : Bool :=
  c = ' ' || c = '\t' || c = '\n' || c = '\r'

/-- Drop leading JSON whitespace. -/
def skipWS : List Char → List Char
  | [] => []
  | c :: cs => if jsonWS c then skipWS cs else c :: cs

/-- Value of a hex digit, if the character is one. -/
def hexVal (c : Char) : Option Nat :=
  if '0' ≤ c ∧ c ≤ '9' then some (c.toNat - '0'.toNat)
  else if 'a' ≤ c ∧ c ≤ 'f' then some (c.toNat - 'a'.toNat + 10)
  else if 'A' ≤ c ∧ c ≤ 'F' then some (c.toNat - 'A'.toNat + 10)
  else none

/-- Parse the body of a JSON string literal (after the opening quote),
returning the decoded characters and the input after the closing quote. -/
def pStringBody : Nat → List Char → Option (List Char × List Char)
  | 0, _ => none
  | _, [] => none
  | fuel + 1, c :: cs =>
    if c = '"' then some ([], cs)
    else if c = '\\' then
      match cs with
      | [] => none
      | e :: cs' =>
        if e = '"' ∨ e = '\\' ∨ e = '/' then
          (pStringBody fuel cs').map (fun r => (e :: r.1, r.2))
        else if e = 'b' then
          (pStringBody fuel cs').map (fun r => (Char.ofNat 8 :: r.1, r.2))
        else if e = 'f' then
          (pStringBody fuel cs').map (fun r => (Char.ofNat 12 :: r.1, r.2))
        else if e = 'n' then
          (pStringBody fuel cs').map (fun r => ('\n' :: r.1, r.2))
        else if e = 'r' then
          (pStringBody fuel cs').map (fun r => ('\r' :: r.1, r.2))
        else if e = 't' then
          (pStringBody fuel cs').map (fun r => ('\t' :: r.1, r.2))
        else if e = 'u' then
          match cs' with
          | h1 :: h2 :: h3 :: h4 :: cs'' =>
            match hexVal h1, hexVal h2, hexVal h3, hexVal h4 with
            | some a, some b, some c2, some d =>
              (pStringBody fuel cs'').map
                (fun r => (Char.ofNat (((a * 16 + b) * 16 + c2) * 16 + d) :: r.1, r.2))
            | _, _, _, _ => none
          | _ => none
        else none
    else if c.toNat < 32 then none
    else (pStringBody fuel cs).map (fun r => (c :: r.1, r.2))

/-- One or more decimal digits. -/
def pDigits (cs : List Char) : Option (List Char × List Char) :=
  let d := cs.takeWhile Char.isDigit
  if d = [] then none else some (d, cs.dropWhile Char.isDigit)

/-- Parse a JSON number lexeme. -/
def pNumber (cs : List Char) : Option (List Char × List Char) :=
  let (sign, cs1) :=
    match cs with
    | '-' :: r => (['-'], r)
    | _ => ([], cs)
  match cs1 with
  | [] => none
  | c :: r =>
    if c = '0' then pNumFrac (sign ++ ['0']) r
    else if c.isDigit then
      let d := r.takeWhile Char.isDigit
      pNumFrac (sign ++ c :: d) (r.dropWhile Char.isDigit)
    else none
where
  /-- Optional fraction then optional exponent. -/
  pNumFrac (acc : List Char) (cs : List Char) : Option (List Char × List Char) :=
    match cs with
    | '.' :: r =>
      match pDigits r with
      | some (d, r') => pNumExp (acc ++ '.' :: d) r'
      | none => none
    | _ => pNumExp acc cs
  /-- Optional exponent. -/
  pNumExp (acc : List Char) (cs : List Char) : Option (List Char × List Char) :=
    match cs with
    | e :: r =>
      if e = 'e' ∨ e = 'E' then
        let (sg, r1) :=
          match r with
          | '+' :: r' => (['+'], r')
          | '-' :: r' => (['-'], r')
          | _ => ([], r)
        match pDigits r1 with
        | some (d, r') => some (acc ++ e :: (sg ++ d), r')
        | none => none
      else some (acc, cs)
    | [] => some (acc, cs)

mutual

/-- Parse one JSON value (leading whitespace allowed). -/
def pVal : Nat → List Char → Option (JVal × List Char)
  | 0, _ => none
  | fuel + 1, cs =>
    match skipWS cs with
    | [] => none
    | c :: rest =>
      if c = '"' then
        (pStringBody (fuel + 1) rest).map (fun r => (JVal.jstr (String.mk r.1), r.2))
      else if c = 't' then
        if ['r', 'u', 'e'].isPrefixOf rest then some (JVal.jbool true, rest.drop 3) else none
      else if c = 'f' then
        if ['a', 'l', 's', 'e'].isPrefixOf rest then some (JVal.jbool false, rest.drop 4) else none
      else if c = 'n' then
        if ['u', 'l', 'l'].isPrefixOf rest then some (JVal.jnull, rest.drop 3) else none
      else if c = '-' ∨ c.isDigit then
        (pNumber (c :: rest)).map (fun r => (JVal.jnum (String.mk r.1), r.2))
      else if c = '[' then
        match skipWS rest with
        | ']' :: r => some (JVal.jarr [], r)
        | r => (pElems fuel r).map (fun q => (JVal.jarr q.1, q.2))
      else if c = '{' then
        match skipWS rest with
        | '}' :: r => some (JVal.jobj [], r)
        | r => (pMembers fuel r).map (fun q => (JVal.jobj q.1, q.2))
      else none

/-- Parse the elements of a non-empty JSON array, including the closing
bracket. -/
def pElems : Nat → List Char → Option (List JVal × List Char)
  | 0, _ => none
  | fuel + 1, cs =>
    match pVal fuel cs with
    | none => none
    | some (v, r) =>
      match skipWS r with
      | ',' :: r' =>
        (pElems fuel r').map (fun q => (v :: q.1, q.2))
      | ']' :: r' => some ([v], r')
      | _ => none

/-- Parse the members of a non-empty JSON object, including the closing
brace. -/
def pMembers : Nat → List Char → Option (List (String × JVal) × List Char)
  | 0, _ => none
  | fuel + 1, cs =>
    match skipWS cs with
    | '"' :: r =>
      match pStringBody (fuel + 1) r with
      | none => none
      | some (k, r1) =>
        match skipWS r1 with
        | ':' :: r2 =>
          match pVal fuel r2 with
          | none => none
          | some (v, r3) =>
            match skipWS r3 with
            | ',' :: r4 =>
              (pMembers fuel r4).map (fun q => ((String.mk k, v) :: q.1, q.2))
            | '}' :: r4 => some ([(String.mk k, v)], r4)
            | _ => none
        | _ => none
    | _ => none

end

/-- Model of strict `JSON.parse`: accepts exactly one complete JSON value
surrounded by optional whitespace. -/
def jsonParse (s : String) : Option JVal :=
  match pVal (2 * s.data.length + 8) s.data with
  | some (v, rest) => if skipWS rest = [] then some v else none
  | none => none

/-! ## The character scanner shared by both `extractBalancedJSON` variants -/

/-- State of the character-level scan of `extractBalancedJSON`
(`src/hooks/useHistory.ts`): the stack of expected closing delimiters, and
the string-literal / escape flags. -/
structure ScanState where
  stack : List Char
  inString : Bool
  escape : Bool
deriving DecidableEq

/-- Initial scan state. -/
def initScan : ScanState := ⟨[], false, false⟩

/-- One character of the scan loop of the stack-based
`extractBalancedJSON`. -/
def scanStep (st : ScanState) (c : Char) : ScanState :=
  if st.inString then
    if st.escape then { st with escape := false }
    else if c = '\\' then { st with escape := true }
    else if c = '"' then { st with inString := false }
    else st
  else
    if c = '"' then { st with inString := true }
    else if c = '{' then { st with stack := '}' :: st.stack }
    else if c = '[' then { st with stack := ']' :: st.stack }
    else if c = '}' ∨ c = ']' then
      if st.stack.head? = some c then { st with stack := st.stack.tail } else st
    else st

/-- Scan a character list from a given state. -/
def scanFrom (st : ScanState) (cs : List Char) : ScanState :=
  cs.foldl scanStep st

/-- Scan a character list from the initial state. -/
def scanFull (cs : List Char) : ScanState :=
  scanFrom initScan cs

/-- The suffix of the input starting at the first `'{'`
(`str.substring(start)` where `start = str.indexOf('{')`);
empty when there is no opening brace. -/
def jsonTail (cs : List Char) : List Char :=
  cs.dropWhile (fun c => c ≠ '{')

/-- A string is delimiter-balanced when scanning it leaves no container
open and does not end inside a string literal. -/
def balancedChars (cs : List Char) : Prop :=
  (scanFull cs).stack = [] ∧ (scanFull cs).inString = false

instance : DecidablePred balancedChars := fun cs => by
  unfold balancedChars; infer_instance

namespace UseHistory

/-- Outcome of the scan loop of the stack-based `extractBalancedJSON`:
either the balanced object was completed at some character, or the input
ended first. -/
inductive ScanOutcome where
  | complete (pre : List Char) : ScanOutcome
  | truncated (st : ScanState) : ScanOutcome
deriving DecidableEq

/-- The `for` loop of `extractBalancedJSON` in `src/hooks/useHistory.ts`:
walks the characters, returning the substring up to the character that
emptied the stack (the `stack.length === 0 && i > 0` early return), or the
final scan state when the input ends first.  `acc` holds the consumed
characters in reverse; `acc ≠ []` is the `i > 0` test. -/
def extractLoop : ScanState → List Char → List Char → ScanOutcome
  | st, _, [] => .truncated st
  | st, acc, c :: rest =>
    let st' := scanStep st c
    if st'.stack = [] ∧ acc ≠ [] then .complete ((c :: acc).reverse)
    else extractLoop st' (c :: acc) rest

/-- `extractBalancedJSON` from `src/hooks/useHistory.ts` (stack-based
scanner with auto-repair): find the first `'{'`; scan forward; if the
stack empties, return the complete object; otherwise append one closing
quote when still inside a string, then the pending closers in
last-in-first-out order. -/
def extractBalancedJSON (s : String) : String :=
  let tl := jsonTail s.data
  if tl = [] then s
  else
    match extractLoop initScan [] tl with
    | .complete pre => String.mk pre
    | .truncated st =>
      String.mk (tl ++ (if st.inString then ['"'] else []) ++ st.stack)

end UseHistory

namespace GeminiService

/-- Outcome of the counter-based scan loop of `extractBalancedJSON` in
`src/services/geminiService.ts`. -/
inductive ScanGOutcome where
  | complete (pre : List Char) : ScanGOutcome
  | truncated (openBraces openBrackets : Int) (inString : Bool) : ScanGOutcome
deriving DecidableEq

/-- The `for` loop of the counter-based `extractBalancedJSON`: tracks
`openBraces` and `openBrackets` counters and the string flag; the
completion test runs only on characters processed outside a string. -/
def extractGLoop : Int → Int → Bool → Bool → List Char → List Char → ScanGOutcome
  | ob, obk, inStr, _, _, [] => .truncated ob obk inStr
  | ob, obk, inStr, esc, acc, c :: rest =>
    if inStr then
      if esc then extractGLoop ob obk true false (c :: acc) rest
      else if c = '\\' then extractGLoop ob obk true true (c :: acc) rest
      else if c = '"' then extractGLoop ob obk false false (c :: acc) rest
      else extractGLoop ob obk true false (c :: acc) rest
    else
      let ob' := if c = '{' then ob + 1 else if c = '}' then ob - 1 else ob
      let obk' := if c = '[' then obk + 1 else if c = ']' then obk - 1 else obk
      if ob' = 0 ∧ obk' = 0 ∧ acc ≠ [] then .complete ((c :: acc).reverse)
      else extractGLoop ob' obk' (c = '"') false (c :: acc) rest

/-- `extractBalancedJSON` from `src/services/geminiService.ts`
(counter-based with auto-repair): on truncation it appends one closing
quote when inside a string, then all pending `']'`s, then all pending
`'}'`s. -/
def extractBalancedJSON (s : String) : String :=
  let tl := jsonTail s.data
  if tl = [] then s
  else
    match extractGLoop 0 0 false false [] tl with
    | .complete pre => String.mk pre
    | .truncated ob obk inStr =>
      String.mk (tl ++ (if inStr then ['"'] else [])
        ++ List.replicate obk.toNat ']' ++ List.replicate ob.toNat '}')

end GeminiService

/-! ## The candidate document model

`CandidateDocument` (§3 of the spec): the untyped value produced by a
successful parse.  Fields the code reads are modelled as `Option`s of
their expected shape (absent = `none`); values the sanitizers only carry
around (visuals, design) stay as raw `JVal`s, since the source never
inspects them. -/

/-- JavaScript truthiness of a JSON value (`null`, `false`, `0`, `""` are
falsy).  Numeric falsiness is modelled on the lexeme `"0"`. -/
def jTruthy : JVal → Bool
  | .jnull => false
  | .jbool b => b
  | .jnum l => l ≠ "0"
  | .jstr s => s ≠ ""
  | .jarr _ => true
  | .jobj _ => true

/-- Substring test on character lists (the semantics of JavaScript
`String.prototype.includes`). -/
def listContains (needle : List Char) : List Char → Bool
  | [] => needle.isEmpty
  | c :: rest => needle.isPrefixOf (c :: rest) || listContains needle rest

/-- JavaScript `hay.includes(needle)`. -/
def strContains (hay needle : String) : Bool :=
  listContains needle.data hay.data

/-- JavaScript `String(x)` for a value that is a string or `undefined`. -/
def stringifyOpt : Option String → String
  | some s => s
  | none => "undefined"

/-- Characters of the JavaScript `\s` class (ASCII part). -/
def jsSpace (c : Char) : Bool :=
  c = ' ' || c = '\t' || c = '\n' || c = '\r' || c = Char.ofNat 11 || c = Char.ofNat 12

/-- Remove leading and trailing whitespace (JavaScript `trim()`),
implemented over the character list. -/
def trimChars (cs : List Char) : List Char :=
  ((cs.dropWhile jsSpace).reverse.dropWhile jsSpace).reverse

/-- JavaScript `trim()` on strings. -/
def strTrim (s : String) : String :=
  String.mk (trimChars s.data)

/-- JavaScript `toLowerCase()` (ASCII range, which covers every use in
the source). -/
def lowerStr (s : String) : String :=
  String.mk (s.data.map Char.toLower)

/-- Remove the first case-insensitive occurrence of `column` together with
the whitespace run following it (`.replace(/column\s*/i, '')`). -/
def stripColumnWord : List Char → List Char
  | [] => []
  | c :: rest =>
    if ['c', 'o', 'l', 'u', 'm', 'n'].isPrefixOf ((c :: rest).map Char.toLower) then
      ((c :: rest).drop 6).dropWhile jsSpace
    else c :: stripColumnWord rest

/-- The column value after `String(section.column).replace(/column\s*/i, '').trim()`. -/
def strippedColumn (column : Option String) : String :=
  String.mk (trimChars (stripColumnWord (stringifyOpt column).data))

/-- The keyword heuristic: does the lower-cased title contain
`abstract`, `intro`, `method` or `objective`? -/
def titleKeyword (title : Option String) : Bool :=
  let t := lowerStr (title.getD "")
  strContains t "abstract" || strContains t "intro" ||
    strContains t "method" || strContains t "objective"

/-- The column sanitization step shared verbatim by both `sanitizeData`
generations: strip a stray `column` word, and if the result is not `"1"`
or `"2"`, assign by the title-keyword heuristic. -/
def sanitizeColumn (column title : Option String) : String :=
  let c := strippedColumn column
  if c = "1" ∨ c = "2" then c
  else if titleKeyword title then "1" else "2"

/-- A section of the candidate document. -/
structure CandSection where
  id : Option String := none
  title : Option String := none
  content : Option String := none
  column : Option String := none
  visuals : Option (List JVal) := none
  visual : Option JVal := none
  design : Option JVal := none

/-- The (possibly partial) theme of the candidate document. -/
structure CandTheme where
  backgroundColor : Option String := none
  headerColor : Option String := none
  titleColor : Option String := none
  headingColor : Option String := none
  textColor : Option String := none
  accentColor : Option String := none
  sectionBackgroundColor : Option String := none
  sectionBodyColor : Option String := none

/-- The (possibly partial) contact info of the candidate document. -/
structure CandContact where
  email : Option String := none
  phone : Option String := none
  location : Option String := none
  website : Option String := none
  qrCodeUrl : Option String := none

/-- The candidate document: every top-level field may be absent. -/
structure Candidate where
  title : Option String := none
  authors : Option (List String) := none
  university : Option String := none
  department : Option String := none
  theme : Option CandTheme := none
  sections : Option (List CandSection) := none
  contactInfo : Option CandContact := none
  leftLogoUrl : Option String := none
  rightLogoUrl : Option String := none
  warnings : Option (List String) := none

/-- Migrate the deprecated singular `visual` field into `visuals`
(`if (section.visual) { ...push...; delete section.visual; }`). -/
def migrateVisual (s : CandSection) : CandSection :=
  match s.visual with
  | some v =>
    if jTruthy v then
      { s with visuals := some (s.visuals.getD [] ++ [v]), visual := none }
    else s
  | none => s

/-- Ensure the `visuals` array exists (`if (!section.visuals) section.visuals = []`). -/
def ensureVisuals (s : CandSection) : CandSection :=
  { s with visuals := some (s.visuals.getD []) }

/-- Normalized (trimmed, case-folded) form of a title. -/
def normTitle (s : String) : String :=
  lowerStr (strTrim s)

/-! ## `sanitizeData`, generation 1 (`src/services/geminiService.ts`) -/

namespace GeminiService

/-- The per-section normalization of generation-1 `sanitizeData`:
column sanitization and visual migration (no id handling). -/
def gSectionStep (s : CandSection) : CandSection :=
  ensureVisuals (migrateVisual { s with column := some (sanitizeColumn s.column s.title) })

/-- The duplicate-detection fingerprint:
`` `${section.title?.trim().toLowerCase()}|${section.content?.trim().toLowerCase()}` ``
(a template literal, so an absent field prints as `undefined`). -/
def fingerprint (s : CandSection) : String :=
  stringifyOpt (s.title.map normTitle) ++ "|" ++ stringifyOpt (s.content.map normTitle)

/-- The `forEach` loop of generation-1 `sanitizeData`: normalize each
section, keep it only if its fingerprint was not seen before. -/
def gDedupLoop (seen : List String) : List CandSection → List CandSection
  | [] => []
  | s :: rest =>
    let s' := gSectionStep s
    let fp := fingerprint s'
    if fp ∈ seen then gDedupLoop seen rest
    else s' :: gDedupLoop (fp :: seen) rest

/-- `sanitizeData` from `src/services/geminiService.ts`: if there is no
sections array, return the input unchanged; otherwise normalize each
section and drop sections whose title+content fingerprint repeats. -/
def sanitizeData (data : Candidate) : Candidate :=
  match data.sections with
  | none => data
  | some secs => { data with sections := some (gDedupLoop [] secs) }

end GeminiService

/-! ## `sanitizeData`, generation 2 (`src/hooks/useHistory.ts`) -/

/-- The default theme of generation-2 `sanitizeData`. -/
structure Theme where
  backgroundColor : String
  headerColor : String
  titleColor : String
  headingColor : String
  textColor : String
  accentColor : String
  sectionBackgroundColor : String
  sectionBodyColor : String
deriving DecidableEq

/-- Contact info with every field present. -/
structure ContactInfo where
  email : String
  phone : String
  location : String
  website : String
  qrCodeUrl : String
deriving DecidableEq

/-- `defaultData.theme` from `src/hooks/useHistory.ts`. -/
def defaultTheme : Theme :=
  ⟨"#F0F4F8", "#2C3E50", "#FFFFFF", "#1A5276", "#34495E", "#3498DB", "#FFFFFF", "#34495E"⟩

/-- `defaultData.contactInfo` from `src/hooks/useHistory.ts`. -/
def defaultContact : ContactInfo :=
  ⟨"", "", "", "", ""⟩

/-- The normalized poster document: every top-level field present
(sections keep the candidate-section representation, whose guarantees are
stated in the theorems rather than in the type). -/
structure PosterDoc where
  title : String
  authors : List String
  university : String
  department : String
  theme : Theme
  sections : List CandSection
  contactInfo : ContactInfo
  leftLogoUrl : String
  rightLogoUrl : String
  warnings : List String

/-- The spread `{...defaultData.theme, ...data.theme}`. -/
def mergeTheme (t : CandTheme) : Theme :=
  ⟨t.backgroundColor.getD defaultTheme.backgroundColor,
   t.headerColor.getD defaultTheme.headerColor,
   t.titleColor.getD defaultTheme.titleColor,
   t.headingColor.getD defaultTheme.headingColor,
   t.textColor.getD defaultTheme.textColor,
   t.accentColor.getD defaultTheme.accentColor,
   t.sectionBackgroundColor.getD defaultTheme.sectionBackgroundColor,
   t.sectionBodyColor.getD defaultTheme.sectionBodyColor⟩

/-- The spread `{...defaultData.contactInfo, ...data.contactInfo}`. -/
def mergeContact (c : CandContact) : ContactInfo :=
  ⟨c.email.getD "", c.phone.getD "", c.location.getD "",
   c.website.getD "", c.qrCodeUrl.getD ""⟩

namespace UseHistory

/-- A generated section id:
`` `section-${Math.random().toString(36).substr(2, 9)}-${Date.now()}` ``,
with the random-and-timestamp part abstracted as the supplied fragment. -/
def mkId (frag : String) : String :=
  "section-" ++ frag

/-- The per-section normalization of generation-2 `sanitizeData`: assign
an id when the id is absent or `""` (JavaScript `if (!section.id)`), then
sanitize the column and the visuals.  Returns the next unused index of the
id supply. -/
def hSectionStep (gen : Nat → String) (n : Nat) (s : CandSection) : CandSection × Nat :=
  let (s, n) :=
    match s.id with
    | some i => if i = "" then ({ s with id := some (mkId (gen n)) }, n + 1) else (s, n)
    | none => ({ s with id := some (mkId (gen n)) }, n + 1)
  (ensureVisuals (migrateVisual { s with column := some (sanitizeColumn s.column s.title) }), n)

/-- The merge key: `section.title?.trim().toLowerCase()` (`none` when the
title is absent — a distinct `Map` key in the source as well). -/
def normKey (s : CandSection) : Option String :=
  s.title.map normTitle

/-- The content part of the duplicate merge
(`if (section.content && !existingSection.content.includes(section.content.substring(0, 50))) ...`):
append the duplicate's content unless its first 50 characters already
occur in the retained content; throws, as the source does (a `TypeError`
on `undefined.includes`), when the retained section has no content while
the duplicate has nonempty content. -/
def mergeContentField (e s : CandSection) : Except Unit (Option String) :=
  match s.content with
  | some c =>
    if c = "" then .ok e.content
    else
      match e.content with
      | some ec =>
        if strContains ec (String.mk (c.data.take 50)) then .ok e.content
        else .ok (some (ec ++ "\n\n" ++ c))
      | none => .error ()
  | none => .ok e.content

/-- Merge a duplicate-titled section into the retained one: merge the
content, then append the visuals
(`existingSection.visuals = [...(existingSection.visuals || []), ...section.visuals]`,
run only when the duplicate's visuals list is nonempty). -/
def mergeSections (e s : CandSection) : Except Unit CandSection :=
  match mergeContentField e s with
  | .error u => .error u
  | .ok content' =>
    .ok { e with
          content := content'
          visuals :=
            if (s.visuals.getD []).isEmpty then e.visuals
            else some (e.visuals.getD [] ++ s.visuals.getD []) }

/-- Insert a normalized section into the accumulated unique list: merge
into the first section with the same normalized title, else append. -/
def insertSection (s : CandSection) : List CandSection → Except Unit (List CandSection)
  | [] => .ok [s]
  | e :: rest =>
    if normKey e = normKey s then
      match mergeSections e s with
      | .error u => .error u
      | .ok e' => .ok (e' :: rest)
    else
      match insertSection s rest with
      | .error u => .error u
      | .ok r => .ok (e :: r)

/-- The `forEach` loop of generation-2 `sanitizeData`, left to right over
the input sections. -/
def hLoop (gen : Nat → String) : Nat → List CandSection → List CandSection →
    Except Unit (List CandSection)
  | _, acc, [] => .ok acc
  | n, acc, s :: rest =>
    match insertSection (hSectionStep gen n s).1 acc with
    | .error u => .error u
    | .ok acc' => hLoop gen (hSectionStep gen n s).2 acc' rest

/-- `sanitizeData` from `src/hooks/useHistory.ts`: merge the candidate
over the fixed default document, then normalize, deduplicate and merge the
sections.  `gen` supplies the random id fragments. -/
def sanitizeData (gen : Nat → String) (data : Candidate) : Except Unit PosterDoc :=
  match hLoop gen 0 [] (data.sections.getD []) with
  | .error u => .error u
  | .ok outSecs => .ok
    { title := data.title.getD "Untitled Poster"
      authors := data.authors.getD []
      university := data.university.getD "Unknown University"
      department := data.department.getD "Unknown Department"
      theme :=
        match data.theme with
        | some t => mergeTheme t
        | none => defaultTheme
      sections := outSecs
      contactInfo :=
        match data.contactInfo with
        | some ci => mergeContact ci
        | none => defaultContact
      leftLogoUrl := data.leftLogoUrl.getD ""
      rightLogoUrl := data.rightLogoUrl.getD ""
      warnings := data.warnings.getD [] }

end UseHistory

/-- Re-inject a normalized document as a candidate (in the source both are
the same untyped JavaScript value; this is the identity on the underlying
data). -/
def toCandTheme (t : Theme) : CandTheme :=
  ⟨some t.backgroundColor, some t.headerColor, some t.titleColor, some t.headingColor,
   some t.textColor, some t.accentColor, some t.sectionBackgroundColor, some t.sectionBodyColor⟩

/-- Re-inject contact info as a candidate contact. -/
def toCandContact (c : ContactInfo) : CandContact :=
  ⟨some c.email, some c.phone, some c.location, some c.website, some c.qrCodeUrl⟩

/-- Re-inject a normalized document as a candidate document. -/
def toCandidate (d : PosterDoc) : Candidate :=
  { title := some d.title
    authors := some d.authors
    university := some d.university
    department := some d.department
    theme := some (toCandTheme d.theme)
    sections := some d.sections
    contactInfo := some (toCandContact d.contactInfo)
    leftLogoUrl := some d.leftLogoUrl
    rightLogoUrl := some d.rightLogoUrl
    warnings := some d.warnings }

/-! ## The JS-value-level ("loose") model

`sanitizeData` receives whatever `JSON.parse` produced — any JSON value,
with fields of any shape.  The loose model works directly on `JVal`:
a field is absent (`undefined`) or holds an arbitrary value, and every
JS operation that can throw a `TypeError` on an unexpected shape is
modelled as `Except Unit`.  JS objects are restricted to the schema keys
the pipeline reads or writes; unread keys play no role in any claim. -/

/-- Object field lookup; a repeated name takes the last occurrence, as
`JSON.parse` does. -/
def jLookup (fs : List (String × JVal)) (k : String) : Option JVal :=
  (fs.reverse.find? (fun p => p.1 == k)).map (·.2)

/-- `typeof v === 'object'` for a parsed JSON value (`null`, arrays and
objects). -/
def jIsObjectType : JVal → Bool
  | .jobj _ => true
  | .jarr _ => true
  | .jnull => true
  | _ => false

/-- Truthiness of a possibly-absent value (`undefined` is falsy). -/
def jTruthyO : Option JVal → Bool
  | none => false
  | some v => jTruthy v

/-- JavaScript `String(v)` on a parsed JSON value: `null`, booleans and
strings stringify as in JS; a number renders as its parsed lexeme (exact
for canonical literals); an array joins its elements with commas with
`null` elements empty (`Array.prototype.join`); a plain object renders as
`[object Object]`. -/
def jToString : JVal → String
  | .jnull => "null"
  | .jbool b => if b then "true" else "false"
  | .jnum lit => lit
  | .jstr s => s
  | .jobj _ => "[object Object]"
  | .jarr [] => ""
  | .jarr [JVal.jnull] => ""
  | .jarr [x] => jToString x
  | .jarr (JVal.jnull :: xs) => "," ++ jToString (.jarr xs)
  | .jarr (x :: xs) => jToString x ++ "," ++ jToString (.jarr xs)
termination_by v => sizeOf v
decreasing_by all_goals (simp_wf; try omega)

/-- `String(x)` where `x` may be `undefined`. -/
def jToStringU : Option JVal → String
  | none => "undefined"
  | some v => jToString v

/-- Property read `v.k` of a schema key on an arbitrary value: objects
look the key up; arrays and primitives have none of the schema keys.
(Both sanitizers reach their property reads only after a null check, so
`null` never arrives here.) -/
def lookJ : JVal → String → Option JVal
  | .jobj fs, k => jLookup fs k
  | _, _ => none

/-- Property write `o.k = v` on an object's field list: overwrite the
binding in place (every duplicate, which lookups cannot distinguish), or
append the key when absent. -/
def jSetField (fs : List (String × JVal)) (k : String) (v : JVal) :
    List (String × JVal) :=
  if (jLookup fs k).isSome then fs.map (fun p => if p.1 = k then (p.1, v) else p)
  else fs ++ [(k, v)]

/-- Property delete `delete o.k`. -/
def jDelField (fs : List (String × JVal)) (k : String) : List (String × JVal) :=
  fs.filter (fun p => p.1 != k)

/-- A JS section object restricted to its schema keys, each absent
(`undefined`) or an arbitrary JSON value. -/
structure LSection where
  id : Option JVal := none
  title : Option JVal := none
  content : Option JVal := none
  column : Option JVal := none
  visual : Option JVal := none
  visuals : Option JVal := none

/-- Enter a section element of the `forEach`: an object yields its schema
fields; an array is an object carrying none of the schema keys (the loop's
later property writes land on it, which the record fields model); `null`
throws at the first property read (`TypeError: cannot read ... of null`);
a primitive throws at the first property write (`section.column = col`, or
`section.id = ...`): ES modules are strict-mode code, where assigning a
property of a primitive is a `TypeError`. -/
def readLSection : JVal → Except Unit LSection
  | .jobj fs => .ok ⟨jLookup fs "id", jLookup fs "title", jLookup fs "content",
      jLookup fs "column", jLookup fs "visual", jLookup fs "visuals"⟩
  | .jarr _ => .ok ⟨none, none, none, none, none, none⟩
  | _ => .error ()

/-- The column sanitization of both generations over raw values:
`String(section.column).replace(/column\s*/i, '').trim()`, then the
keyword fallback `section.title?.toLowerCase() || ''` — the optional
chain only guards `null`/`undefined`, so a present non-string title
throws at `.toLowerCase`. -/
def sanitizeColumnL (column title : Option JVal) : Except Unit String :=
  match String.mk (trimChars (stripColumnWord (jToStringU column).data)) with
  | col =>
    if col = "1" ∨ col = "2" then .ok col
    else
      match title with
      | none => .ok (if titleKeyword none then "1" else "2")
      | some JVal.jnull => .ok (if titleKeyword none then "1" else "2")
      | some (JVal.jstr t) => .ok (if titleKeyword (some t) then "1" else "2")
      | some _ => .error ()

/-- `if (!section.visuals) section.visuals = [];` — replace a falsy (or
absent) visuals value by an empty array, keep a truthy one. -/
def jsOrArr : Option JVal → JVal
  | none => .jarr []
  | some w => if jTruthy w then w else .jarr []

/-- Steps `if (section.visual) { if (!section.visuals) section.visuals = [];
section.visuals.push(section.visual); delete section.visual; }` followed by
`if (!section.visuals) section.visuals = [];` (identical in both
generations).  Returns the final `visual` (deleted when migrated) and
`visuals` values; `.push` on a truthy non-array visuals throws. -/
def normVisualsL (visual visuals : Option JVal) : Except Unit (Option JVal × JVal) :=
  match visual with
  | some v =>
    if jTruthy v then
      match jsOrArr visuals with
      | .jarr l => .ok (none, .jarr (l ++ [v]))
      | _ => .error ()
    else .ok (visual, jsOrArr visuals)
  | none => .ok (none, jsOrArr visuals)

/-- `v.length > 0` under JS comparison (`undefined > 0` is false). -/
def jLenPos : JVal → Bool
  | .jarr (_ :: _) => true
  | .jstr st => !st.isEmpty
  | _ => false

/-- Spread into an array literal (`[...v]`): arrays spread their elements,
strings their characters; any other truthy value is not iterable and
throws. -/
def jSpread : JVal → Except Unit (List JVal)
  | .jarr l => .ok l
  | .jstr st => .ok (st.data.map (fun ch => JVal.jstr (String.mk [ch])))
  | _ => .error ()

/-- `[...(x || [])]`: a falsy or absent value spreads as empty. -/
def jOrEmptySpread : Option JVal → Except Unit (List JVal)
  | none => .ok []
  | some v => if jTruthy v then jSpread v else .ok []

/-- One part of the generation-1 fingerprint template literal
`` `${section.title?.trim().toLowerCase()}|...` ``: absent and null
interpolate as `"undefined"` (the optional chain yields `undefined`); a
string is trimmed and lowered; any other present value throws at
`.trim`. -/
def fpPart : Option JVal → Except Unit String
  | none => .ok "undefined"
  | some JVal.jnull => .ok "undefined"
  | some (JVal.jstr t) => .ok (lowerStr (strTrim t))
  | some _ => .error ()

/-- The generation-1 per-section pass over a raw element: sanitize the
column, migrate the visual, build the fingerprint; returns the fingerprint
and the mutated section.  A null element throws at the first property
read, a primitive at the strict-mode property write; an array element
passes through (its schema reads are all `undefined`, giving fingerprint
`"undefined|undefined"`, and the property writes are invisible to the
schema keys). -/
def GeminiService.gStepL (e : JVal) : Except Unit (String × JVal) :=
  match e with
  | .jobj fs =>
    match sanitizeColumnL (jLookup fs "column") (jLookup fs "title") with
    | .error u => .error u
    | .ok col =>
      match normVisualsL (jLookup fs "visual") (jLookup fs "visuals") with
      | .error u => .error u
      | .ok (vis, viss) =>
        match fpPart (jLookup fs "title"), fpPart (jLookup fs "content") with
        | .ok a, .ok b =>
          .ok (a ++ "|" ++ b,
            .jobj (jSetField
              (match vis with
               | none => jDelField (jSetField fs "column" (.jstr col)) "visual"
               | some _ => jSetField fs "column" (.jstr col))
              "visuals" viss))
        | .error u, _ => .error u
        | _, .error u => .error u
  | .jarr _ => .ok ("undefined|undefined", e)
  | _ => .error ()

/-- The generation-1 `forEach`: keep a section exactly when its
fingerprint is new. -/
def GeminiService.gDedupL (seen : List String) : List JVal → Except Unit (List JVal)
  | [] => .ok []
  | e :: rest =>
    match GeminiService.gStepL e with
    | .error u => .error u
    | .ok (fp, e2) =>
      if fp ∈ seen then GeminiService.gDedupL seen rest
      else
        match GeminiService.gDedupL (fp :: seen) rest with
        | .error u => .error u
        | .ok r => .ok (e2 :: r)

/-- `sanitizeData` from `src/services/geminiService.ts` over raw parsed
values: `if (!data || !data.sections || !Array.isArray(data.sections))
return data;` — only a truthy object with a `sections` array is processed
(a non-object has no `sections` property, a falsy value fails `!data`),
everything else passes through unchanged and unchecked. -/
def GeminiService.sanitizeDataL (data : JVal) : Except Unit JVal :=
  match data with
  | .jobj fs =>
    match jLookup fs "sections" with
    | some (.jarr l) =>
      match GeminiService.gDedupL [] l with
      | .error u => .error u
      | .ok uniq => .ok (.jobj (jSetField fs "sections" (.jarr uniq)))
    | _ => .ok data
  | _ => .ok data

/-- The generation-2 per-section normalization over a loose section:
`if (!section.id) section.id = ...` (any falsy id — absent, `null`, `""`,
`0`, `false` — is replaced), column sanitization, visual migration. -/
def UseHistory.lSectionStep (gen : Nat → String) (n : Nat) (s0 : LSection) :
    Except Unit (LSection × Nat) :=
  match (if jTruthyO s0.id then (s0.id, n)
         else (some (JVal.jstr (UseHistory.mkId (gen n))), n + 1)) with
  | (idv, n2) =>
    match sanitizeColumnL s0.column s0.title with
    | .error u => .error u
    | .ok col =>
      match normVisualsL s0.visual s0.visuals with
      | .error u => .error u
      | .ok (vis, viss) =>
        .ok ({ s0 with
                id := idv
                column := some (JVal.jstr col)
                visual := vis
                visuals := some viss }, n2)

/-- The `Map` key `section.title?.trim().toLowerCase()`: `undefined` for
an absent or null title (a legal `Map` key), the normalized string for a
string title; any other present title throws at `.trim`. -/
def UseHistory.normKeyL (s : LSection) : Except Unit (Option String) :=
  match s.title with
  | none => .ok none
  | some JVal.jnull => .ok none
  | some (JVal.jstr t) => .ok (some (normTitle t))
  | some _ => .error ()

/-- `if (section.content && !existingSection.content.includes(
section.content.substring(0, 50))) existingSection.content += ...`:
a falsy incoming content is skipped; a truthy non-string incoming content
throws at `.substring`; a retained content that is not a string throws at
the `.includes` call (reading it of `undefined`/`null`, or calling a
non-function — an array retained content, whose `Array.includes` would
not throw, is outside the schema fragment and collapsed into the same
`TypeError` arm; no claim relies on it). -/
def UseHistory.lMergeContent (e s : LSection) : Except Unit (Option JVal) :=
  match s.content with
  | none => .ok e.content
  | some cv =>
    if jTruthy cv then
      match e.content, cv with
      | some (JVal.jstr ec), JVal.jstr c =>
        if strContains ec (String.mk (c.data.take 50)) then .ok e.content
        else .ok (some (JVal.jstr (ec ++ "\n\n" ++ c)))
      | _, _ => .error ()
    else .ok e.content

/-- Merge a duplicate-titled section into the retained one: the content
merge, then `if (section.visuals && section.visuals.length > 0)
existingSection.visuals = [...(existingSection.visuals || []),
...section.visuals];` — a visuals value without a positive `.length`
(including a truthy non-array object) skips the append; the spreads throw
on truthy non-iterable values. -/
def UseHistory.lMergeSections (e s : LSection) : Except Unit LSection :=
  match UseHistory.lMergeContent e s with
  | .error u => .error u
  | .ok content2 =>
    match s.visuals with
    | some sv =>
      if jTruthy sv && jLenPos sv then
        match jOrEmptySpread e.visuals, jSpread sv with
        | .ok el, .ok sl =>
          .ok { e with content := content2, visuals := some (.jarr (el ++ sl)) }
        | .error u, _ => .error u
        | _, .error u => .error u
      else .ok { e with content := content2 }
    | none => .ok { e with content := content2 }

/-- The accumulated unique sections, each paired with the `Map` key it was
registered under (the key is computed once per incoming section, as the
`Map` does): merge into the first section with the same key, else
append. -/
def UseHistory.lInsert (k : Option String) (s : LSection) :
    List (Option String × LSection) → Except Unit (List (Option String × LSection))
  | [] => .ok [(k, s)]
  | (k2, e) :: rest =>
    if k2 = k then
      match UseHistory.lMergeSections e s with
      | .error u => .error u
      | .ok e2 => .ok ((k2, e2) :: rest)
    else
      match UseHistory.lInsert k s rest with
      | .error u => .error u
      | .ok r => .ok ((k2, e) :: r)

/-- The generation-2 `forEach` over raw section elements. -/
def UseHistory.lLoop (gen : Nat → String) :
    Nat → List (Option String × LSection) → List JVal →
    Except Unit (List (Option String × LSection))
  | _, acc, [] => .ok acc
  | n, acc, e :: rest =>
    match readLSection e with
    | .error u => .error u
    | .ok s0 =>
      match UseHistory.lSectionStep gen n s0 with
      | .error u => .error u
      | .ok (s, n2) =>
        match UseHistory.normKeyL s with
        | .error u => .error u
        | .ok k =>
          match UseHistory.lInsert k s acc with
          | .error u => .error u
          | .ok acc2 => UseHistory.lLoop gen n2 acc2 rest

/-- `defaultData.theme` as the JS object it is. -/
def defaultThemeJ : JVal :=
  .jobj [("backgroundColor", .jstr "#F0F4F8"), ("headerColor", .jstr "#2C3E50"),
         ("titleColor", .jstr "#FFFFFF"), ("headingColor", .jstr "#1A5276"),
         ("textColor", .jstr "#34495E"), ("accentColor", .jstr "#3498DB"),
         ("sectionBackgroundColor", .jstr "#FFFFFF"), ("sectionBodyColor", .jstr "#34495E")]

/-- `defaultData.contactInfo` as the JS object it is. -/
def defaultContactJ : JVal :=
  .jobj [("email", .jstr ""), ("phone", .jstr ""), ("location", .jstr ""),
         ("website", .jstr ""), ("qrCodeUrl", .jstr "")]

/-- The generation-2 result object over its schema keys: after
`{ ...defaultData, ...data }` every schema key is present, but its value
is whatever `data` carried (`null` included); the sections are the
reconciled unique sections. -/
structure LDoc where
  title : JVal
  authors : JVal
  university : JVal
  department : JVal
  theme : JVal
  sections : List LSection
  contactInfo : JVal
  leftLogoUrl : JVal
  rightLogoUrl : JVal
  warnings : JVal

/-- `defaultData` itself as a result object. -/
def defaultLDoc : LDoc :=
  ⟨.jstr "Untitled Poster", .jarr [], .jstr "Unknown University",
   .jstr "Unknown Department", defaultThemeJ, [], defaultContactJ,
   .jstr "", .jstr "", .jarr []⟩

/-- `{ ...defaultData.theme, ...data.theme }` over the eight schema keys:
a key present on `data.theme` (`null` included) overrides the default;
spreading a truthy non-object contributes none of the schema keys. -/
def spreadThemeJ : JVal → JVal
  | .jobj fs =>
    .jobj [("backgroundColor", (jLookup fs "backgroundColor").getD (.jstr "#F0F4F8")),
           ("headerColor", (jLookup fs "headerColor").getD (.jstr "#2C3E50")),
           ("titleColor", (jLookup fs "titleColor").getD (.jstr "#FFFFFF")),
           ("headingColor", (jLookup fs "headingColor").getD (.jstr "#1A5276")),
           ("textColor", (jLookup fs "textColor").getD (.jstr "#34495E")),
           ("accentColor", (jLookup fs "accentColor").getD (.jstr "#3498DB")),
           ("sectionBackgroundColor",
             (jLookup fs "sectionBackgroundColor").getD (.jstr "#FFFFFF")),
           ("sectionBodyColor", (jLookup fs "sectionBodyColor").getD (.jstr "#34495E"))]
  | _ => defaultThemeJ

/-- `{ ...defaultData.contactInfo, ...data.contactInfo }` likewise. -/
def spreadContactJ : JVal → JVal
  | .jobj fs =>
    .jobj [("email", (jLookup fs "email").getD (.jstr "")),
           ("phone", (jLookup fs "phone").getD (.jstr "")),
           ("location", (jLookup fs "location").getD (.jstr "")),
           ("website", (jLookup fs "website").getD (.jstr "")),
           ("qrCodeUrl", (jLookup fs "qrCodeUrl").getD (.jstr ""))]
  | _ => defaultContactJ

/-- `sanitizeData` from `src/hooks/useHistory.ts` over raw parsed values:
a falsy or non-object input returns `defaultData`; otherwise the spread
`{ ...defaultData, ...data }` takes each present field as-is (`null`
included) and the default for absent ones; `if (data.theme) mergedData.theme
= { ...defaultData.theme, ...data.theme };` re-merges a truthy theme (and
contactInfo) while a present falsy one survives raw; the
`warnings && Array.isArray(warnings)` override re-assigns the value the
spread already put there, so it is a no-op; sections are reset to `[]`
unless a truthy array, then reconciled. -/
def UseHistory.sanitizeDataL (gen : Nat → String) (data : JVal) : Except Unit LDoc :=
  if jTruthy data && jIsObjectType data then
    match UseHistory.lLoop gen 0 []
        (match lookJ data "sections" with
         | some (JVal.jarr l) => l
         | _ => []) with
    | .error u => .error u
    | .ok acc => .ok
      { title := (lookJ data "title").getD (.jstr "Untitled Poster")
        authors := (lookJ data "authors").getD (.jarr [])
        university := (lookJ data "university").getD (.jstr "Unknown University")
        department := (lookJ data "department").getD (.jstr "Unknown Department")
        theme :=
          match lookJ data "theme" with
          | none => defaultThemeJ
          | some tv => if jTruthy tv then spreadThemeJ tv else tv
        sections := acc.map (fun p => p.2)
        contactInfo :=
          match lookJ data "contactInfo" with
          | none => defaultContactJ
          | some cv => if jTruthy cv then spreadContactJ cv else cv
        leftLogoUrl := (lookJ data "leftLogoUrl").getD (.jstr "")
        rightLogoUrl := (lookJ data "rightLogoUrl").getD (.jstr "")
        warnings := (lookJ data "warnings").getD (.jarr []) }
  else .ok defaultLDoc

/-- The shapes under which the generation-2 step and merge never throw:
title a string, null or absent; content a string; no singular visual;
visuals an array or absent. -/
def TameLSec (s : LSection) : Prop :=
  (s.title = none ∨ s.title = some JVal.jnull ∨ ∃ t, s.title = some (JVal.jstr t)) ∧
  (∃ c, s.content = some (JVal.jstr c)) ∧
  s.visual = none ∧
  (s.visuals = none ∨ ∃ l, s.visuals = some (JVal.jarr l))

/-- A tame raw section element: one the loop reads successfully into a
tame loose section. -/
def TameSection (e : JVal) : Prop :=
  ∃ s0, readLSection e = .ok s0 ∧ TameLSec s0

/-- A normalized loose section: truthy id, column exactly `"1"` or `"2"`,
array visuals, no singular visual, string content. -/
def LSanitized (s : LSection) : Prop :=
  (∃ i, s.id = some i ∧ jTruthy i = true) ∧
  (s.column = some (JVal.jstr "1") ∨ s.column = some (JVal.jstr "2")) ∧
  (∃ l, s.visuals = some (JVal.jarr l)) ∧
  s.visual = none ∧
  (∃ c, s.content = some (JVal.jstr c))


/-! ## The syntax repair pass

Each regular-expression rewrite of the fallback branch of
`parseJsonResponse` is modelled as a matcher tried at every position, left
to right, continuing after each replacement — the semantics of
`String.replace` with a `g`-flagged pattern. -/

/-- Apply a matcher at every position, left to right; on a match, emit the
replacement and continue after the matched text.  Fuel is the input
length; every matcher below consumes at least one character. -/
def replaceScan (f : List Char → Option (List Char × List Char)) :
    Nat → List Char → List Char
  | 0, cs => cs
  | _, [] => []
  | fuel + 1, c :: rest =>
    match f (c :: rest) with
    | some (repl, rest') => repl ++ replaceScan f fuel rest'
    | none => c :: replaceScan f fuel rest

/-- Run one rewrite rule over a whole string. -/
def applyRule (f : List Char → Option (List Char × List Char)) (s : String) : String :=
  String.mk (replaceScan f s.data.length s.data)

/-- Split a character list at its leading whitespace run. -/
def wsSpan (cs : List Char) : List Char × List Char :=
  (cs.takeWhile jsSpace, cs.dropWhile jsSpace)

/-- `/\/\/.*$/gm` → `''`: drop everything from `//` to the end of the
line (string-literal-blind, as in the source). -/
def stripLineComments : Bool → List Char → List Char
  | _, [] => []
  | false, '/' :: '/' :: rest => stripLineComments true rest
  | false, c :: rest => c :: stripLineComments false rest
  | true, c :: rest =>
    if c = '\n' ∨ c = '\r' then c :: stripLineComments false rest
    else stripLineComments true rest

/-- `` `"\s+"(${knownKeys.join('|')})":` `` → `", "$1":`. -/
def mStrKey (keys : List String) (cs : List Char) : Option (List Char × List Char) :=
  match cs with
  | '"' :: r1 =>
    let (w, r2) := wsSpan r1
    if w.isEmpty then none
    else
      match r2 with
      | '"' :: r3 =>
        match keys.find? (fun k => (k.data ++ ['"', ':']).isPrefixOf r3) with
        | some k =>
          some ('"' :: ',' :: ' ' :: '"' :: (k.data ++ ['"', ':']),
            r3.drop (k.data.length + 2))
        | none => none
      | _ => none
  | _ => none

/-- `` `X\s+"(${knownKeys.join('|')})":` `` → `X, "$1":` for a closing
delimiter `X` (the `}`- and `]`-variants of the key-aware comma fix). -/
def mCloserKey (closer : Char) (keys : List String) (cs : List Char) :
    Option (List Char × List Char) :=
  match cs with
  | c :: r1 =>
    if c = closer then
      let (w, r2) := wsSpan r1
      if w.isEmpty then none
      else
        match r2 with
        | '"' :: r3 =>
          match keys.find? (fun k => (k.data ++ ['"', ':']).isPrefixOf r3) with
          | some k =>
            some (closer :: ',' :: ' ' :: '"' :: (k.data ++ ['"', ':']),
              r3.drop (k.data.length + 2))
          | none => none
        | _ => none
    else none
  | [] => none

/-- `/}(\s*){/g` → `}, $1{`. -/
def mBraceBrace (cs : List Char) : Option (List Char × List Char) :=
  match cs with
  | '}' :: r1 =>
    let (w, r2) := wsSpan r1
    match r2 with
    | '{' :: r3 => some ('}' :: ',' :: ' ' :: (w ++ ['{']), r3)
    | _ => none
  | _ => none

/-- `/](\s*)\[/g` → `], $1[`. -/
def mBracketBracket (cs : List Char) : Option (List Char × List Char) :=
  match cs with
  | ']' :: r1 =>
    let (w, r2) := wsSpan r1
    match r2 with
    | '[' :: r3 => some (']' :: ',' :: ' ' :: (w ++ ['[']), r3)
    | _ => none
  | _ => none

/-- `/"(\s+)"/g` → `", $1"`. -/
def mStrStr (cs : List Char) : Option (List Char × List Char) :=
  match cs with
  | '"' :: r1 =>
    let (w, r2) := wsSpan r1
    if w.isEmpty then none
    else
      match r2 with
      | '"' :: r3 => some ('"' :: ',' :: ' ' :: (w ++ ['"']), r3)
      | _ => none
  | _ => none

/-- `/"(\s+)([\dtfn\[{])/g` → `", $1$2`. -/
def mStrVal (cs : List Char) : Option (List Char × List Char) :=
  match cs with
  | '"' :: r1 =>
    let (w, r2) := wsSpan r1
    if w.isEmpty then none
    else
      match r2 with
      | c :: r3 =>
        if c.isDigit ∨ c = 't' ∨ c = 'f' ∨ c = 'n' ∨ c = '[' ∨ c = '{' then
          some ('"' :: ',' :: ' ' :: (w ++ [c]), r3)
        else none
      | [] => none
  | _ => none

/-- `/(\d+|true|false|null)(\s+)"/g` → `$1, $2"`. -/
def mValStr (cs : List Char) : Option (List Char × List Char) :=
  let tok : Option (List Char × List Char) :=
    match cs with
    | c :: r =>
      if c.isDigit then some (c :: r.takeWhile Char.isDigit, r.dropWhile Char.isDigit)
      else if ['t', 'r', 'u', 'e'].isPrefixOf cs then some (cs.take 4, cs.drop 4)
      else if ['f', 'a', 'l', 's', 'e'].isPrefixOf cs then some (cs.take 5, cs.drop 5)
      else if ['n', 'u', 'l', 'l'].isPrefixOf cs then some (cs.take 4, cs.drop 4)
      else none
    | [] => none
  match tok with
  | some (t, r1) =>
    let (w, r2) := wsSpan r1
    if w.isEmpty then none
    else
      match r2 with
      | '"' :: r3 => some (t ++ ',' :: ' ' :: (w ++ ['"']), r3)
      | _ => none
  | none => none

/-- `/(\d)\s+(\d)/g` → `$1, $2`. -/
def mDigitDigit (cs : List Char) : Option (List Char × List Char) :=
  match cs with
  | d1 :: r1 =>
    if d1.isDigit then
      let (w, r2) := wsSpan r1
      if w.isEmpty then none
      else
        match r2 with
        | d2 :: r3 => if d2.isDigit then some ([d1, ',', ' ', d2], r3) else none
        | [] => none
    else none
  | [] => none

/-- `/([\]}])(\s*)"/g` → `$1, $2"`. -/
def mCloserStr (cs : List Char) : Option (List Char × List Char) :=
  match cs with
  | c :: r1 =>
    if c = ']' ∨ c = '}' then
      let (w, r2) := wsSpan r1
      match r2 with
      | '"' :: r3 => some (c :: ',' :: ' ' :: (w ++ ['"']), r3)
      | _ => none
    else none
  | [] => none

/-- `/,\s*([\]}])/g` → `$1`. -/
def mTrailingComma (cs : List Char) : Option (List Char × List Char) :=
  match cs with
  | ',' :: r1 =>
    let (_, r2) := wsSpan r1
    match r2 with
    | c :: r3 => if c = ']' ∨ c = '}' then some ([c], r3) else none
    | [] => none
  | _ => none

/-- `/([^\[\{\:,\s\\])\s*"\s*([^:,\}\]\s])/g` → `$1\"$2`. -/
def mQuoteInText (cs : List Char) : Option (List Char × List Char) :=
  match cs with
  | c1 :: r1 =>
    if c1 = '[' ∨ c1 = '{' ∨ c1 = ':' ∨ c1 = ',' ∨ c1 = '\\' ∨ jsSpace c1 then none
    else
      let (_, r2) := wsSpan r1
      match r2 with
      | '"' :: r3 =>
        let (_, r4) := wsSpan r3
        match r4 with
        | c2 :: r5 =>
          if c2 = ':' ∨ c2 = ',' ∨ c2 = '}' ∨ c2 = ']' ∨ jsSpace c2 then none
          else some ([c1, '\\', '"', c2], r5)
        | [] => none
      | _ => none
  | [] => none

/-- An ASCII letter or digit. -/
def alnum (c : Char) : Bool :=
  ('a' ≤ c ∧ c ≤ 'z') || ('A' ≤ c ∧ c ≤ 'Z') || ('0' ≤ c ∧ c ≤ '9')

/-- `/([a-zA-Z0-9.,;!?])\s+"([a-zA-Z0-9])/g` → `$1 \"$2`. -/
def mQuoteAfterGap (cs : List Char) : Option (List Char × List Char) :=
  match cs with
  | c1 :: r1 =>
    if alnum c1 ∨ c1 = '.' ∨ c1 = ',' ∨ c1 = ';' ∨ c1 = '!' ∨ c1 = '?' then
      let (w, r2) := wsSpan r1
      if w.isEmpty then none
      else
        match r2 with
        | '"' :: c2 :: r3 => if alnum c2 then some ([c1, ' ', '\\', '"', c2], r3) else none
        | _ => none
    else none
  | [] => none

/-- `/([a-zA-Z0-9])"\s+([a-zA-Z0-9.,;!?])/g` → `$1\" $2`. -/
def mQuoteBeforeGap (cs : List Char) : Option (List Char × List Char) :=
  match cs with
  | c1 :: '"' :: r1 =>
    if alnum c1 then
      let (w, r2) := wsSpan r1
      if w.isEmpty then none
      else
        match r2 with
        | c2 :: r3 =>
          if alnum c2 ∨ c2 = '.' ∨ c2 = ',' ∨ c2 = ';' ∨ c2 = '!' ∨ c2 = '?' then
            some ([c1, '\\', '"', ' ', c2], r3)
          else none
        | [] => none
    else none
  | _ => none

/-- The `knownKeys` list of `src/services/geminiService.ts`. -/
def knownKeysG : List String :=
  ["title", "authors", "university", "department", "rightLogoUrl", "leftLogoUrl",
   "theme", "sections", "contactInfo",
   "backgroundColor", "headerColor", "titleColor", "headingColor", "textColor",
   "accentColor", "sectionBackgroundColor", "sectionBodyColor",
   "content", "column", "visuals",
   "type", "items", "labels", "datasets", "url", "caption", "style", "headers", "rows",
   "value", "color", "data",
   "email", "phone", "location", "website", "qrCodeUrl",
   "design", "icon", "variant", "customColor"]

/-- The `knownKeys` list of the copy in `src/hooks/useHistory.ts`
(adds `warnings`). -/
def knownKeysH : List String :=
  knownKeysG ++ ["warnings"]

/-- The fallback repair pass of `parseJsonResponse`: the rewrites in
source order. -/
def fixText (keys : List String) (s : String) : String :=
  let s := String.mk (stripLineComments false s.data)
  let s := applyRule (mStrKey keys) s
  let s := applyRule (mCloserKey '}' keys) s
  let s := applyRule (mCloserKey ']' keys) s
  let s := applyRule mBraceBrace s
  let s := applyRule mBracketBracket s
  let s := applyRule mStrStr s
  let s := applyRule mStrVal s
  let s := applyRule mValStr s
  let s := applyRule mDigitDigit s
  let s := applyRule mCloserStr s
  let s := applyRule mTrailingComma s
  let s := applyRule mQuoteInText s
  let s := applyRule mQuoteAfterGap s
  let s := applyRule mQuoteBeforeGap s
  s

/-- `` text.replace(/```json/gi, '') ``. -/
def mFenceJson (cs : List Char) : Option (List Char × List Char) :=
  if (cs.take 7).map Char.toLower = "```json".data then some ([], cs.drop 7) else none

/-- `` text.replace(/```/g, '') ``. -/
def mFence (cs : List Char) : Option (List Char × List Char) :=
  if cs.take 3 = "```".data then some ([], cs.drop 3) else none

/-- Step 1 of `parseJsonResponse`: strip markdown code fences and trim. -/
def cleanFences (s : String) : String :=
  strTrim (applyRule mFence (applyRule mFenceJson s))

/-- The fixed user-facing diagnostic returned when the repair-and-reparse
cycle also fails (identical text in both source files). -/
def parseErrorMessage : String :=
  "We encountered a formatting issue with the AI's response. Please try generating again, or use a shorter input text to reduce complexity."

namespace GeminiService

/-- `parseJsonResponse` from `src/services/geminiService.ts`: clean, scan,
strict parse, then sanitize — the parse AND the sanitize run inside the
same `try`, so a sanitizer throw also sends control into the
repair-and-reparse branch; a second failure of either step returns the
fixed diagnostic. -/
def parseJsonResponse (text : String) : Except String JVal :=
  match jsonParse (extractBalancedJSON (cleanFences text)) with
  | some v =>
    match sanitizeDataL v with
    | .ok d => .ok d
    | .error _ =>
      match jsonParse (fixText knownKeysG (extractBalancedJSON (cleanFences text))) with
      | some v2 =>
        match sanitizeDataL v2 with
        | .ok d => .ok d
        | .error _ => .error parseErrorMessage
      | none => .error parseErrorMessage
  | none =>
    match jsonParse (fixText knownKeysG (extractBalancedJSON (cleanFences text))) with
    | some v2 =>
      match sanitizeDataL v2 with
      | .ok d => .ok d
      | .error _ => .error parseErrorMessage
    | none => .error parseErrorMessage

end GeminiService

namespace UseHistory

/-- `parseJsonResponse` from `src/hooks/useHistory.ts`: the same
try-parse-sanitize / repair-reparse-sanitize structure, with its own
sanitizer and the extended known-key list. -/
def parseJsonResponse (gen : Nat → String) (text : String) : Except String LDoc :=
  match jsonParse (extractBalancedJSON (cleanFences text)) with
  | some v =>
    match sanitizeDataL gen v with
    | .ok d => .ok d
    | .error _ =>
      match jsonParse (fixText knownKeysH (extractBalancedJSON (cleanFences text))) with
      | some v2 =>
        match sanitizeDataL gen v2 with
        | .ok d => .ok d
        | .error _ => .error parseErrorMessage
      | none => .error parseErrorMessage
  | none =>
    match jsonParse (fixText knownKeysH (extractBalancedJSON (cleanFences text))) with
    | some v2 =>
      match sanitizeDataL gen v2 with
      | .ok d => .ok d
      | .error _ => .error parseErrorMessage
    | none => .error parseErrorMessage

end UseHistory

/-! ## The undo/redo history utility (`useHistory` in `src/hooks/useHistory.ts`) -/

/-- The history state of the `useHistory` hook. -/
structure HistoryState (T : Type) where
  past : List T
  present : T
  future : List T
deriving DecidableEq

namespace UseHistory

/-- `undo`: move the last past entry to the present, pushing the present
onto the future; no-op on empty past. -/
def undo {T : Type} (c : HistoryState T) : HistoryState T :=
  match c.past.getLast? with
  | none => c
  | some previous => ⟨c.past.dropLast, previous, c.present :: c.future⟩

/-- `redo`: move the first future entry to the present, appending the
present to the past; no-op on empty future. -/
def redo {T : Type} (c : HistoryState T) : HistoryState T :=
  match c.future with
  | [] => c
  | next :: rest => ⟨c.past ++ [c.present], next, rest⟩

/-- `set`: push the present and clear the future, unless the new value is
the current present (the source compares with `===`; equality of values
models it for the distinct-value case the claims quantify over). -/
def set {T : Type} [DecidableEq T] (c : HistoryState T) (newPresent : T) : HistoryState T :=
  if c.present = newPresent then c
  else ⟨c.past ++ [c.present], newPresent, []⟩

/-- `update`: replace the present without touching past or future. -/
def update {T : Type} (c : HistoryState T) (newPresent : T) : HistoryState T :=
  { c with present := newPresent }

/-- `snapshot`: push the present onto the past and clear the future. -/
def snapshot {T : Type} (c : HistoryState T) : HistoryState T :=
  ⟨c.past ++ [c.present], c.present, []⟩

/-- `clear`: reset to a fresh history around the given state. -/
def clear {T : Type} (state : T) : HistoryState T :=
  ⟨[], state, []⟩

end UseHistory

/-! ## Derived notions used by the statements below -/

/-- The repair suffix described by §4.2 of the specification, computed
from the scan of the remainder: the remainder itself, one closing quote if
the scan ended inside a string literal, then the pending closing
delimiters innermost-first. -/
def lifoRepair (cs : List Char) : List Char :=
  cs ++ (if (scanFull cs).inString then ['"'] else []) ++ (scanFull cs).stack

/-- A section in generation-2 normal form: a nonempty id, a column that is
exactly `"1"` or `"2"`, no pending singular `visual` (or one that is falsy
and therefore never migrated), and a materialized `visuals` list. -/
def SanitizedSec (s : CandSection) : Prop :=
  (∃ i, s.id = some i ∧ i ≠ "") ∧
  (s.column = some "1" ∨ s.column = some "2") ∧
  (s.visual = none ∨ ∃ v, s.visual = some v ∧ jTruthy v = false) ∧
  (∃ l, s.visuals = some l)

/-- A section in generation-1 normal form (as generation 2, but without
the id guarantee, which generation 1 does not provide). -/
def GSanitized (s : CandSection) : Prop :=
  (s.column = some "1" ∨ s.column = some "2") ∧
  (s.visual = none ∨ ∃ v, s.visual = some v ∧ jTruthy v = false) ∧
  (∃ l, s.visuals = some l)

/-! ## Helper lemmas -/

/-- Unfolding equation for `sanitizeColumn`. -/
theorem sanitizeColumn_eq (column title : Option String) :
    sanitizeColumn column title =
      if strippedColumn column = "1" ∨ strippedColumn column = "2" then strippedColumn column
      else if titleKeyword title then "1" else "2" := rfl

/-! ## Claims -/

/-- C10: for every history state of the `useHistory` utility: undo
immediately followed by redo restores the state that held before the undo
(present, past, and in fact the future as well); `set` with a value
different from the present pushes the present and empties the redo future;
undo on an empty past and redo on an empty future leave the state
unchanged. -/
theorem claim_C10 {T : Type} [DecidableEq T] (s : HistoryState T) (v : T) :
    (s.past ≠ [] → UseHistory.redo (UseHistory.undo s) = s) ∧
    (v ≠ s.present → UseHistory.set s v = ⟨s.past ++ [s.present], v, []⟩) ∧
    (s.past = [] → UseHistory.undo s = s) ∧
    (s.future = [] → UseHistory.redo s = s) := by
  obtain ⟨p, x, f⟩ := s
  refine ⟨?_, ?_, ?_, ?_⟩
  · intro h
    rcases List.eq_nil_or_concat p with rfl | ⟨q, a, rfl⟩
    · exact absurd rfl h
    · simp only [List.concat_eq_append, UseHistory.undo, UseHistory.redo,
        List.getLast?_concat, List.dropLast_concat]
  · intro h
    simp only [UseHistory.set]
    rw [if_neg (fun hh => h hh.symm)]
  · intro h
    subst h
    rfl
  · intro h
    subst h
    rfl

/-- Witness for C10 at a concrete history state over `Nat`. -/
theorem claim_C10_witness :
    UseHistory.redo (UseHistory.undo (⟨[1], 2, [3]⟩ : HistoryState Nat)) = ⟨[1], 2, [3]⟩ ∧
    UseHistory.set (⟨[1], 2, [3]⟩ : HistoryState Nat) 5 = ⟨[1] ++ [2], 5, []⟩ ∧
    UseHistory.undo (⟨[], 2, [3]⟩ : HistoryState Nat) = ⟨[], 2, [3]⟩ ∧
    UseHistory.redo (⟨[1], 2, []⟩ : HistoryState Nat) = ⟨[1], 2, []⟩ :=
  ⟨(claim_C10 ⟨[1], 2, [3]⟩ 5).1 (by decide),
   (claim_C10 ⟨[1], 2, [3]⟩ 5).2.1 (by decide),
   (claim_C10 ⟨[], 2, [3]⟩ 5).2.2.1 rfl,
   (claim_C10 ⟨[1], 2, []⟩ 5).2.2.2 rfl⟩

/-- C7 counterexample: the claim says the fallback assigns `"1"` exactly
when the title contains an introduction/methods/objective keyword, but the
code also assigns `"1"` for titles containing `abstract`: a section titled
`"Abstract"` with the unusable column `"x"` gets column `"1"` although its
title contains none of `intro`, `method`, `objective`. -/
theorem claim_C7_counterexample :
    sanitizeColumn (some "x") (some "Abstract") = "1" ∧
    strContains (lowerStr "Abstract") "intro" = false ∧
    strContains (lowerStr "Abstract") "method" = false ∧
    strContains (lowerStr "Abstract") "objective" = false := by decide

/-- C7 (amended): the normalized column is always exactly `"1"` or `"2"`;
a stray `column` word is stripped (so `"Column 2"` coerces to `"2"`); and
when the stripped value is not `"1"` or `"2"`, the section gets `"1"`
exactly when its title contains an abstract/introduction/methods/objective
keyword (`abstract`, `intro`, `method`, `objective` as case-insensitive
substrings), else `"2"`. -/
theorem claim_C7 (column title : Option String) :
    (sanitizeColumn column title = "1" ∨ sanitizeColumn column title = "2") ∧
    (¬(strippedColumn column = "1" ∨ strippedColumn column = "2") →
      (sanitizeColumn column title = "1" ↔ titleKeyword title = true)) ∧
    sanitizeColumn (some "Column 2") title = "2" := by
  refine ⟨?_, ?_, ?_⟩
  · rw [sanitizeColumn_eq]
    split
    · assumption
    · split
      · exact Or.inl rfl
      · exact Or.inr rfl
  · intro h
    rw [sanitizeColumn_eq, if_neg h]
    constructor
    · intro h1
      by_contra hk
      rw [if_neg hk] at h1
      exact absurd h1 (by decide)
    · intro hk
      rw [if_pos hk]
  · rw [sanitizeColumn_eq]
    have h2 : strippedColumn (some "Column 2") = "2" := by decide
    rw [h2]
    rw [if_pos (Or.inr rfl)]

/-- Witness for C7 at a concrete malformed column and a `Methods` title. -/
theorem claim_C7_witness :
    sanitizeColumn (some "weird") (some "Methods") = "1" ∧
    sanitizeColumn (some "Column 2") (some "Methods") = "2" :=
  ⟨((claim_C7 (some "weird") (some "Methods")).2.1 (by decide)).mpr (by decide),
   (claim_C7 (some "Column 2") (some "Methods")).2.2⟩

/-- C1 counterexample: `\x7b"a":1\x7d` is valid JSON; truncating it at
offset 5 (strictly after the opening brace) gives `\x7b"a":`, which both
extractors repair to `\x7b"a":\x7d` — and a strict JSON parse rejects that
repaired text, so the repaired output is not always parseable. -/
theorem claim_C1_counterexample :
    (jsonParse "\x7b\"a\":1\x7d").isSome = true ∧
    String.mk ("\x7b\"a\":1\x7d".data.take 5) = "\x7b\"a\":" ∧
    UseHistory.extractBalancedJSON "\x7b\"a\":" = "\x7b\"a\":\x7d" ∧
    GeminiService.extractBalancedJSON "\x7b\"a\":" = "\x7b\"a\":\x7d" ∧
    (jsonParse "\x7b\"a\":\x7d").isSome = false := by decide

/-- C2 counterexample: on the truncated input `\x7b"a":[\x7b"b":[` the
counter-based extractor of `geminiService.ts` appends `]]\x7d\x7d` — all
pending brackets, then all pending braces — which is not the reverse
nesting order `]\x7d]\x7d`; the result is not even structurally parseable. -/
theorem claim_C2_counterexample :
    GeminiService.extractBalancedJSON "\x7b\"a\":[\x7b\"b\":[" =
      "\x7b\"a\":[\x7b\"b\":[]]\x7d\x7d" ∧
    String.mk (lifoRepair (jsonTail "\x7b\"a\":[\x7b\"b\":[".data)) =
      "\x7b\"a\":[\x7b\"b\":[]\x7d]\x7d" ∧
    GeminiService.extractBalancedJSON "\x7b\"a\":[\x7b\"b\":[" ≠
      String.mk (lifoRepair (jsonTail "\x7b\"a\":[\x7b\"b\":[".data)) ∧
    (jsonParse (GeminiService.extractBalancedJSON "\x7b\"a\":[\x7b\"b\":[")).isSome = false := by
  decide

/-- `scanFrom` distributes over append. -/
theorem scanFrom_append (st : ScanState) (l1 l2 : List Char) :
    scanFrom st (l1 ++ l2) = scanFrom (scanFrom st l1) l2 :=
  List.foldl_append _ _ _ _

/-- One scan step only ever pushes `'}'` or `']'`. -/
theorem scanStep_elems (st : ScanState) (c : Char) :
    ∀ x ∈ (scanStep st c).stack, x ∈ st.stack ∨ x = '}' ∨ x = ']' := by
  intro x hx
  unfold scanStep at hx
  split_ifs at hx <;>
    first
      | exact Or.inl hx
      | (rcases List.mem_cons.mp hx with rfl | hmem
         · simp
         · exact Or.inl hmem)
      | exact Or.inl (List.mem_of_mem_tail hx)

/-- The escape flag can only be set inside a string literal. -/
theorem scanStep_strEsc (st : ScanState) (c : Char)
    (h : st.inString = false → st.escape = false) :
    (scanStep st c).inString = false → (scanStep st c).escape = false := by
  unfold scanStep
  split_ifs <;> simp_all

/-- When a step empties a nonempty stack, the step was a pop outside any
string literal, so the string flag is off afterwards. -/
theorem scanStep_pop_inString (st : ScanState) (c : Char)
    (hne : st.stack ≠ []) (hempty : (scanStep st c).stack = []) :
    (scanStep st c).inString = false := by
  unfold scanStep at hempty ⊢
  split_ifs at hempty ⊢ <;> simp_all

/-- Every pending closer along a scan is `'}'` or `']'`. -/
theorem scanFrom_elems (cs : List Char) : ∀ (st : ScanState),
    (∀ x ∈ st.stack, x = '}' ∨ x = ']') →
    ∀ x ∈ (scanFrom st cs).stack, x = '}' ∨ x = ']' := by
  induction cs with
  | nil => exact fun _ h => h
  | cons c cs ih =>
    intro st h x hx
    refine ih (scanStep st c) ?_ x hx
    intro y hy
    rcases scanStep_elems st c y hy with hmem | hok
    · exact h y hmem
    · exact hok

/-- Feeding a pending-closer stack back to the scanner, outside a string,
pops it entirely. -/
theorem closers_scan (stk : List Char) (esc : Bool)
    (h : ∀ x ∈ stk, x = '}' ∨ x = ']') :
    scanFrom ⟨stk, false, esc⟩ stk = ⟨[], false, esc⟩ := by
  induction stk with
  | nil => rfl
  | cons c rest ih =>
    have hc := h c (List.mem_cons_self c rest)
    have hstep : scanStep ⟨c :: rest, false, esc⟩ c = ⟨rest, false, esc⟩ := by
      rcases hc with rfl | rfl <;> rfl
    show scanFrom (scanStep ⟨c :: rest, false, esc⟩ c) rest = _
    rw [hstep]
    exact ih (fun x hx => h x (List.mem_cons_of_mem c hx))

/-- The truncation repair of the stack-based extractor yields
delimiter-balanced text whenever the scan of the remainder did not stop
half-way through an escape sequence. -/
theorem repair_balanced (cs : List Char)
    (hesc : (scanFull cs).escape = false) :
    balancedChars (lifoRepair cs) := by
  have helems : ∀ x ∈ (scanFull cs).stack, x = '}' ∨ x = ']' :=
    scanFrom_elems cs initScan (by intro x hx; cases hx)
  unfold balancedChars lifoRepair
  have h1 : scanFull (cs ++ (if (scanFull cs).inString then ['"'] else []) ++ (scanFull cs).stack)
      = scanFrom (scanFrom (scanFull cs) (if (scanFull cs).inString then ['"'] else []))
          (scanFull cs).stack := by
    show scanFrom initScan _ = _
    rw [scanFrom_append, scanFrom_append]
    rfl
  have heta : scanFull cs = ⟨(scanFull cs).stack, (scanFull cs).inString, (scanFull cs).escape⟩ :=
    rfl
  rw [h1]
  cases hstr : (scanFull cs).inString with
  | false =>
    have heta2 : scanFull cs = ⟨(scanFull cs).stack, false, (scanFull cs).escape⟩ := by
      conv_lhs => rw [heta]
      rw [hstr]
    have h3 : scanFrom (scanFull cs) ((scanFull cs).stack) = ⟨[], false, (scanFull cs).escape⟩ := by
      conv_lhs => rw [heta2]
      exact closers_scan _ _ helems
    show (scanFrom (scanFrom (scanFull cs) []) (scanFull cs).stack).stack = [] ∧
      (scanFrom (scanFrom (scanFull cs) []) (scanFull cs).stack).inString = false
    rw [show scanFrom (scanFull cs) [] = scanFull cs from rfl, h3]
    exact ⟨rfl, rfl⟩
  | true =>
    have h2 : scanStep (scanFull cs) '"' = ⟨(scanFull cs).stack, false, false⟩ := by
      unfold scanStep
      rw [if_pos hstr, if_neg (by rw [hesc]; exact Bool.false_ne_true),
        if_neg (by decide : ¬('"' : Char) = '\\'), if_pos rfl]
      show (⟨(scanFull cs).stack, false, (scanFull cs).escape⟩ : ScanState) = _
      rw [hesc]
    show (scanFrom (scanFrom (scanFull cs) ['"']) (scanFull cs).stack).stack = [] ∧
      (scanFrom (scanFrom (scanFull cs) ['"']) (scanFull cs).stack).inString = false
    rw [show scanFrom (scanFull cs) ['"'] = scanStep (scanFull cs) '"' from rfl, h2,
      closers_scan _ _ helems]
    exact ⟨rfl, rfl⟩

/-- Unfolding equation for the cons case of the extraction loop. -/
theorem extractLoop_cons (st : ScanState) (acc : List Char) (c : Char) (rest : List Char) :
    UseHistory.extractLoop st acc (c :: rest) =
      if (scanStep st c).stack = [] ∧ acc ≠ [] then
        UseHistory.ScanOutcome.complete ((c :: acc).reverse)
      else UseHistory.extractLoop (scanStep st c) (c :: acc) rest := rfl

/-- If the scan loop runs off the end of the input, the state it reports
is the scan of the whole input. -/
theorem extractLoop_truncated (rest : List Char) : ∀ (st : ScanState) (acc : List Char)
    (stf : ScanState), UseHistory.extractLoop st acc rest = .truncated stf →
    stf = scanFrom st rest := by
  induction rest with
  | nil =>
    intro st acc stf h
    cases h
    rfl
  | cons c rest ih =>
    intro st acc stf h
    rw [extractLoop_cons] at h
    by_cases hc : (scanStep st c).stack = [] ∧ acc ≠ []
    · rw [if_pos hc] at h
      cases h
    · rw [if_neg hc] at h
      exact ih (scanStep st c) (c :: acc) stf h

/-- If no nonempty prefix of the input empties the stack, the loop reaches
end-of-input and reports the full scan state. -/
theorem extractLoop_no_early (rest : List Char) : ∀ (st : ScanState) (acc : List Char),
    (∀ n, n < rest.length → (scanFrom st (rest.take (n + 1))).stack ≠ []) →
    UseHistory.extractLoop st acc rest = .truncated (scanFrom st rest) := by
  induction rest with
  | nil => intro st acc _; rfl
  | cons c rest ih =>
    intro st acc h
    have h0 : (scanStep st c).stack ≠ [] := by
      have := h 0 (Nat.succ_pos _)
      simpa [scanFrom] using this
    rw [extractLoop_cons, if_neg (fun hc => h0 hc.1)]
    refine ih (scanStep st c) (c :: acc) ?_
    intro n hn
    have := h (n + 1) (Nat.succ_lt_succ hn)
    simpa [scanFrom] using this

/-- If the loop completes early, the returned text is balanced: the stack
can only empty at a pop outside any string, and what was consumed scans to
exactly that state. -/
theorem extractLoop_complete_balanced (rest : List Char) : ∀ (st : ScanState)
    (acc pre : List Char), UseHistory.extractLoop st acc rest = .complete pre →
    scanFull acc.reverse = st →
    (st.stack = [] → acc = []) →
    (acc = [] → ∀ c' rest', rest = c' :: rest' → c' = '{') →
    balancedChars pre := by
  induction rest with
  | nil =>
    intro st acc pre h
    cases h
  | cons c rest ih =>
    intro st acc pre h hacc hinv hhead
    have hacc' : scanFrom initScan acc.reverse = st := hacc
    rw [extractLoop_cons] at h
    by_cases hcond : (scanStep st c).stack = [] ∧ acc ≠ []
    · rw [if_pos hcond] at h
      cases h
      obtain ⟨hstack, haccne⟩ := hcond
      have hstne : st.stack ≠ [] := fun he => haccne (hinv he)
      have hinstr : (scanStep st c).inString = false :=
        scanStep_pop_inString st c hstne hstack
      have hscan : scanFull ((c :: acc).reverse) = scanStep st c := by
        rw [List.reverse_cons]
        show scanFrom initScan (acc.reverse ++ [c]) = _
        rw [scanFrom_append, hacc']
        rfl
      exact ⟨by rw [hscan]; exact hstack, by rw [hscan]; exact hinstr⟩
    · rw [if_neg hcond] at h
      refine ih (scanStep st c) (c :: acc) pre h ?_ ?_ ?_
      · rw [List.reverse_cons]
        show scanFrom initScan (acc.reverse ++ [c]) = _
        rw [scanFrom_append, hacc']
        rfl
      · intro hempty
        exfalso
        by_cases haccnil : acc = []
        · have hc : c = '{' := hhead haccnil c rest rfl
          subst hc
          have hst : st = initScan := by rw [← hacc, haccnil]; rfl
          rw [hst] at hempty
          exact absurd hempty (by decide)
        · exact hcond ⟨hempty, haccnil⟩
      · intro habs
        exact absurd habs (List.cons_ne_nil c acc)

/-- The first character of a nonempty `jsonTail` is the opening brace. -/
theorem jsonTail_head (cs : List Char) (h : jsonTail cs ≠ []) :
    ∀ c' rest', jsonTail cs = c' :: rest' → c' = '{' := by
  induction cs with
  | nil => exact absurd rfl h
  | cons c cs ih =>
    intro c' rest' heq
    by_cases hc : c = '{'
    · subst hc
      have : jsonTail ('{' :: cs) = '{' :: cs := by
        unfold jsonTail
        rw [List.dropWhile_cons]
        simp
      rw [this] at heq
      exact (List.cons.injEq _ _ _ _ ▸ heq).1.symm ▸ rfl
    · have hstep : jsonTail (c :: cs) = jsonTail cs := by
        unfold jsonTail
        rw [List.dropWhile_cons]
        simp [hc]
      rw [hstep] at heq
      exact ih (by rw [← hstep]; exact h) c' rest' heq

/-- C1 (amended): for any input containing an opening brace whose scan
does not stop half-way through a backslash escape, the stack-based
`extractBalancedJSON` of `useHistory.ts` yields delimiter-balanced text —
every opened container is closed and no string literal is left open.  The
stronger original claim (the output passes a strict JSON parse) fails:
see the counterexample. -/
theorem claim_C1 (s : String) (h1 : jsonTail s.data ≠ [])
    (h2 : (scanFull (jsonTail s.data)).escape = false) :
    balancedChars (UseHistory.extractBalancedJSON s).data := by
  unfold UseHistory.extractBalancedJSON
  rw [if_neg h1]
  rcases hres : UseHistory.extractLoop initScan [] (jsonTail s.data) with pre | stf
  · show balancedChars pre
    exact extractLoop_complete_balanced (jsonTail s.data) initScan [] pre hres rfl
      (fun _ => rfl) (fun _ => jsonTail_head s.data h1)
  · show balancedChars (jsonTail s.data ++ (if stf.inString then ['"'] else []) ++ stf.stack)
    have hstf : stf = scanFull (jsonTail s.data) :=
      extractLoop_truncated (jsonTail s.data) initScan [] stf hres
    rw [hstf]
    exact repair_balanced (jsonTail s.data) h2

/-- Witness for C1: a document truncated inside a string literal. -/
theorem claim_C1_witness :
    jsonTail "\x7b\"a\": \"b".data ≠ [] ∧
    (scanFull (jsonTail "\x7b\"a\": \"b".data)).escape = false ∧
    balancedChars (UseHistory.extractBalancedJSON "\x7b\"a\": \"b").data :=
  ⟨by decide, by decide, claim_C1 "\x7b\"a\": \"b" (by decide) (by decide)⟩

/-- C2 (amended): for the stack-based `extractBalancedJSON` of
`useHistory.ts`, on any input whose scan never returns to balance before
the end (the truncation case), the output is exactly the remainder
followed by one closing quote when the scan ended inside a string, then
the pending closers popped in last-in-first-out (innermost-first) order.
The counter-based variant of `geminiService.ts` does not close in reverse
nesting order: see the counterexample. -/
theorem claim_C2 (s : String) (h1 : jsonTail s.data ≠ [])
    (h2 : ∀ n, n < (jsonTail s.data).length →
      (scanFull ((jsonTail s.data).take (n + 1))).stack ≠ []) :
    UseHistory.extractBalancedJSON s = String.mk (lifoRepair (jsonTail s.data)) := by
  unfold UseHistory.extractBalancedJSON
  rw [if_neg h1]
  rw [extractLoop_no_early (jsonTail s.data) initScan [] h2]
  rfl

/-- Witness for C2 on a concretely truncated nested document. -/
theorem claim_C2_witness :
    UseHistory.extractBalancedJSON "\x7b\"a\":[\x7b\"b\":[" =
      String.mk (lifoRepair (jsonTail "\x7b\"a\":[\x7b\"b\":[".data)) :=
  claim_C2 "\x7b\"a\":[\x7b\"b\":[" (by decide) (by decide)

/-- The sanitized column is always `"1"` or `"2"`. -/
theorem sanitizeColumn_cases (column title : Option String) :
    sanitizeColumn column title = "1" ∨ sanitizeColumn column title = "2" := by
  rw [sanitizeColumn_eq]
  split
  · assumption
  · split
    · exact Or.inl rfl
    · exact Or.inr rfl

/-- A no-op record update on the column field. -/
theorem setColumn_self (s : CandSection) (x : Option String) (h : s.column = x) :
    { s with column := x } = s := by
  obtain ⟨a, b, cn, d, e, f, g⟩ := s
  cases h
  rfl

/-- A no-op record update on the visuals field. -/
theorem setVisuals_self (s : CandSection) (x : Option (List JVal)) (h : s.visuals = x) :
    { s with visuals := x } = s := by
  obtain ⟨a, b, cn, d, e, f, g⟩ := s
  cases h
  rfl

/-- A generated id is never the empty string. -/
theorem mkId_ne_empty (x : String) : UseHistory.mkId x ≠ "" := by
  intro h
  have hlen := congrArg String.length h
  rw [UseHistory.mkId, String.length_append] at hlen
  have h8 : ("section-" : String).length = 8 := rfl
  have h0 : ("" : String).length = 0 := rfl
  rw [h8, h0] at hlen
  omega

/-- Generated ids are injective in the generated fragment. -/
theorem mkId_inj (a b : String) (h : UseHistory.mkId a = UseHistory.mkId b) : a = b := by
  have hdata := congrArg String.data h
  rw [UseHistory.mkId, UseHistory.mkId, String.data_append, String.data_append] at hdata
  have := List.append_cancel_left hdata
  calc a = String.mk a.data := rfl
    _ = String.mk b.data := by rw [this]
    _ = b := rfl

/-- Unfolding equation for the cons case of `hLoop`. -/
theorem hLoop_cons (gen : Nat → String) (n : Nat) (acc : List CandSection)
    (s : CandSection) (rest : List CandSection) :
    UseHistory.hLoop gen n acc (s :: rest) =
      match UseHistory.insertSection (UseHistory.hSectionStep gen n s).1 acc with
      | .error u => .error u
      | .ok acc' => UseHistory.hLoop gen (UseHistory.hSectionStep gen n s).2 acc' rest := rfl

/-- Unfolding equation for the cons case of `insertSection`. -/
theorem insertSection_cons (s e : CandSection) (rest : List CandSection) :
    UseHistory.insertSection s (e :: rest) =
      if UseHistory.normKey e = UseHistory.normKey s then
        match UseHistory.mergeSections e s with
        | .error u => .error u
        | .ok e' => .ok (e' :: rest)
      else
        match UseHistory.insertSection s rest with
        | .error u => .error u
        | .ok r => .ok (e :: r) := rfl

/-- The per-section step of generation-2 `sanitizeData`: the output is in
normal form, and the fields the merge logic reads are untouched. -/
theorem hSectionStep_spec (gen : Nat → String) (n : Nat) (s : CandSection) :
    SanitizedSec (UseHistory.hSectionStep gen n s).1 ∧
    ((UseHistory.hSectionStep gen n s).1).title = s.title ∧
    ((UseHistory.hSectionStep gen n s).1).content = s.content := by
  obtain ⟨sid, stitle, scontent, scol, svis, svisl, sdes⟩ := s
  unfold UseHistory.hSectionStep
  rcases sid with _ | i
  · dsimp only
    unfold migrateVisual ensureVisuals
    rcases svisl with _ | v
    · dsimp only
      exact ⟨⟨⟨_, rfl, mkId_ne_empty _⟩, (sanitizeColumn_cases _ _).imp (congrArg some) (congrArg some), Or.inl rfl, _, rfl⟩, rfl, rfl⟩
    · dsimp only
      by_cases htv : jTruthy v = true
      · rw [if_pos htv]
        exact ⟨⟨⟨_, rfl, mkId_ne_empty _⟩, (sanitizeColumn_cases _ _).imp (congrArg some) (congrArg some), Or.inl rfl, _, rfl⟩, rfl, rfl⟩
      · rw [if_neg htv]
        refine ⟨⟨⟨_, rfl, mkId_ne_empty _⟩, (sanitizeColumn_cases _ _).imp (congrArg some) (congrArg some),
          Or.inr ⟨v, rfl, by simpa using htv⟩, _, rfl⟩, rfl, rfl⟩
  · dsimp only
    by_cases hie : i = ""
    · rw [if_pos hie]
      dsimp only
      unfold migrateVisual ensureVisuals
      rcases svisl with _ | v
      · dsimp only
        exact ⟨⟨⟨_, rfl, mkId_ne_empty _⟩, (sanitizeColumn_cases _ _).imp (congrArg some) (congrArg some), Or.inl rfl, _, rfl⟩, rfl, rfl⟩
      · dsimp only
        by_cases htv : jTruthy v = true
        · rw [if_pos htv]
          exact ⟨⟨⟨_, rfl, mkId_ne_empty _⟩, (sanitizeColumn_cases _ _).imp (congrArg some) (congrArg some), Or.inl rfl, _, rfl⟩, rfl, rfl⟩
        · rw [if_neg htv]
          refine ⟨⟨⟨_, rfl, mkId_ne_empty _⟩, (sanitizeColumn_cases _ _).imp (congrArg some) (congrArg some),
            Or.inr ⟨v, rfl, by simpa using htv⟩, _, rfl⟩, rfl, rfl⟩
    · rw [if_neg hie]
      dsimp only
      unfold migrateVisual ensureVisuals
      rcases svisl with _ | v
      · dsimp only
        exact ⟨⟨⟨i, rfl, hie⟩, (sanitizeColumn_cases _ _).imp (congrArg some) (congrArg some), Or.inl rfl, _, rfl⟩, rfl, rfl⟩
      · dsimp only
        by_cases htv : jTruthy v = true
        · rw [if_pos htv]
          exact ⟨⟨⟨i, rfl, hie⟩, (sanitizeColumn_cases _ _).imp (congrArg some) (congrArg some), Or.inl rfl, _, rfl⟩, rfl, rfl⟩
        · rw [if_neg htv]
          refine ⟨⟨⟨i, rfl, hie⟩, (sanitizeColumn_cases _ _).imp (congrArg some) (congrArg some),
            Or.inr ⟨v, rfl, by simpa using htv⟩, _, rfl⟩, rfl, rfl⟩

/-- The merged content stays present when the retained content was. -/
theorem mergeContentField_isSome (e s : CandSection) (content' : Option String)
    (h : UseHistory.mergeContentField e s = .ok content') (hce : e.content.isSome = true) :
    content'.isSome = true := by
  unfold UseHistory.mergeContentField at h
  rcases hsc : s.content with _ | c
  · rw [hsc] at h; dsimp only at h; cases h; exact hce
  · rw [hsc] at h
    dsimp only at h
    by_cases hc0 : c = ""
    · rw [if_pos hc0] at h; cases h; exact hce
    · rw [if_neg hc0] at h
      rcases hec : e.content with _ | ec
      · rw [hec] at h; dsimp only at h; cases h
      · rw [hec] at h
        dsimp only at h
        by_cases hcont : strContains ec (String.mk (c.data.take 50)) = true
        · rw [if_pos hcont] at h; cases h; rw [hec] at hce; exact hce
        · rw [if_neg hcont] at h; cases h; rfl

/-- A successful merge leaves the identifying fields of the retained
section untouched and preserves presence of content and visuals. -/
theorem mergeSections_fields (e s e' : CandSection)
    (h : UseHistory.mergeSections e s = .ok e') :
    e'.title = e.title ∧ e'.id = e.id ∧ e'.column = e.column ∧ e'.visual = e.visual ∧
    e'.design = e.design ∧
    (e.content.isSome = true → e'.content.isSome = true) ∧
    (e.visuals.isSome = true → e'.visuals.isSome = true) := by
  unfold UseHistory.mergeSections at h
  rcases hmc : UseHistory.mergeContentField e s with u | content'
  · rw [hmc] at h; cases h
  · rw [hmc] at h
    cases h
    refine ⟨rfl, rfl, rfl, rfl, rfl, ?_, ?_⟩
    · intro hce
      exact mergeContentField_isSome e s content' hmc hce
    · intro hve
      dsimp only
      split_ifs
      · exact hve
      · rfl

/-- The merge succeeds whenever the retained content is present. -/
theorem mergeSections_ok_of_isSome (e s : CandSection) (hce : e.content.isSome = true) :
    ∃ e', UseHistory.mergeSections e s = .ok e' := by
  unfold UseHistory.mergeSections UseHistory.mergeContentField
  rcases hsc : s.content with _ | c
  · exact ⟨_, rfl⟩
  · dsimp only
    by_cases hc0 : c = ""
    · rw [if_pos hc0]; exact ⟨_, rfl⟩
    · rw [if_neg hc0]
      obtain ⟨ec, hec⟩ := Option.isSome_iff_exists.mp hce
      rw [hec]
      dsimp only
      by_cases hcont : strContains ec (String.mk (c.data.take 50)) = true
      · rw [if_pos hcont]; exact ⟨_, rfl⟩
      · rw [if_neg hcont]; exact ⟨_, rfl⟩

/-- What a successful insertion can look like: either the key is new and
the section is appended, or it merged into the first section carrying the
same key. -/
theorem insertSection_cases (s : CandSection) : ∀ (acc acc' : List CandSection),
    UseHistory.insertSection s acc = .ok acc' →
    (UseHistory.normKey s ∉ acc.map UseHistory.normKey ∧ acc' = acc ++ [s]) ∨
    (∃ pre e e' post, acc = pre ++ e :: post ∧ acc' = pre ++ e' :: post ∧
      UseHistory.mergeSections e s = .ok e' ∧
      UseHistory.normKey e = UseHistory.normKey s) := by
  intro acc
  induction acc with
  | nil =>
    intro acc' h
    cases h
    exact Or.inl ⟨by simp, rfl⟩
  | cons e rest ih =>
    intro acc' h
    rw [insertSection_cons] at h
    by_cases hk : UseHistory.normKey e = UseHistory.normKey s
    · rw [if_pos hk] at h
      rcases hm : UseHistory.mergeSections e s with u | e'
      · rw [hm] at h; cases h
      · rw [hm] at h
        cases h
        exact Or.inr ⟨[], e, e', rest, rfl, rfl, hm, hk⟩
    · rw [if_neg hk] at h
      rcases hr : UseHistory.insertSection s rest with u | r
      · rw [hr] at h; cases h
      · rw [hr] at h
        cases h
        rcases ih r hr with ⟨hnot, rfl⟩ | ⟨pre, e0, e0', post, rfl, rfl, hm, hk0⟩
        · refine Or.inl ⟨?_, rfl⟩
          intro hmem
          rw [List.map_cons, List.mem_cons] at hmem
          rcases hmem with heq | hmem2
          · exact hk heq.symm
          · exact hnot hmem2
        · exact Or.inr ⟨e :: pre, e0, e0', post, rfl, rfl, hm, hk0⟩

/-- Effect of an insertion on the normalized-title key list. -/
theorem insertSection_keys (s : CandSection) (acc acc' : List CandSection)
    (h : UseHistory.insertSection s acc = .ok acc') :
    (acc'.map UseHistory.normKey = acc.map UseHistory.normKey ∧
      UseHistory.normKey s ∈ acc.map UseHistory.normKey) ∨
    (acc'.map UseHistory.normKey = acc.map UseHistory.normKey ++ [UseHistory.normKey s] ∧
      UseHistory.normKey s ∉ acc.map UseHistory.normKey) := by
  rcases insertSection_cases s acc acc' h with ⟨hnot, rfl⟩ | ⟨pre, e, e', post, rfl, rfl, hm, hk⟩
  · right
    exact ⟨by simp, hnot⟩
  · left
    have hke : UseHistory.normKey e' = UseHistory.normKey e := by
      unfold UseHistory.normKey
      rw [(mergeSections_fields e s e' hm).1]
    constructor
    · simp [hke]
    · rw [← hk]
      simp

/-- Effect of an insertion on the id list. -/
theorem insertSection_ids (s : CandSection) (acc acc' : List CandSection)
    (h : UseHistory.insertSection s acc = .ok acc') :
    acc'.map (fun x => x.id) = acc.map (fun x => x.id) ∨
    acc'.map (fun x => x.id) = acc.map (fun x => x.id) ++ [s.id] := by
  rcases insertSection_cases s acc acc' h with ⟨_, rfl⟩ | ⟨pre, e, e', post, rfl, rfl, hm, _⟩
  · right; simp
  · left
    simp [(mergeSections_fields e s e' hm).2.1]

/-- A section with a fresh key is appended. -/
theorem insertSection_not_mem (s : CandSection) : ∀ (acc : List CandSection),
    UseHistory.normKey s ∉ acc.map UseHistory.normKey →
    UseHistory.insertSection s acc = .ok (acc ++ [s]) := by
  intro acc
  induction acc with
  | nil => intro _; rfl
  | cons e rest ih =>
    intro hnot
    have hk : ¬(UseHistory.normKey e = UseHistory.normKey s) := fun h => hnot (by simp [← h])
    have h2 : UseHistory.normKey s ∉ rest.map UseHistory.normKey := fun h => hnot (by simp [h])
    rw [insertSection_cons, if_neg hk, ih h2]
    rfl

/-- Insertion succeeds and keeps every content present when all contents
are present. -/
theorem insertSection_ok_contents (s : CandSection) (hsc : s.content.isSome = true) :
    ∀ (acc : List CandSection), (∀ e ∈ acc, e.content.isSome = true) →
    ∃ acc', UseHistory.insertSection s acc = .ok acc' ∧ ∀ e ∈ acc', e.content.isSome = true := by
  intro acc
  induction acc with
  | nil =>
    intro _
    refine ⟨[s], rfl, ?_⟩
    intro e he
    rw [List.mem_singleton] at he
    subst he
    exact hsc
  | cons e rest ih =>
    intro hall
    by_cases hk : UseHistory.normKey e = UseHistory.normKey s
    · obtain ⟨e', hm⟩ := mergeSections_ok_of_isSome e s (hall e (List.mem_cons_self e rest))
      refine ⟨e' :: rest, ?_, ?_⟩
      · rw [insertSection_cons, if_pos hk, hm]
      · intro x hx
        rcases List.mem_cons.mp hx with rfl | hx2
        · exact (mergeSections_fields e s x hm).2.2.2.2.2.1 (hall e (List.mem_cons_self e rest))
        · exact hall x (List.mem_cons_of_mem e hx2)
    · obtain ⟨r, hr, hallr⟩ := ih (fun x hx => hall x (List.mem_cons_of_mem e hx))
      refine ⟨e :: r, ?_, ?_⟩
      · rw [insertSection_cons, if_neg hk, hr]
      · intro x hx
        rcases List.mem_cons.mp hx with rfl | hx2
        · exact hall x (List.mem_cons_self x rest)
        · exact hallr x hx2

/-- Merging preserves the generation-2 normal form of the retained
section. -/
theorem mergeSections_sanitized (e s e' : CandSection)
    (hm : UseHistory.mergeSections e s = .ok e') (hs : SanitizedSec e) : SanitizedSec e' := by
  obtain ⟨⟨i, hid, hine⟩, hcol, hvis, l, hvl⟩ := hs
  obtain ⟨ht, hidq, hcolq, hvq, hdq, _, hvp⟩ := mergeSections_fields e s e' hm
  refine ⟨⟨i, by rw [hidq, hid], hine⟩, ?_, ?_, ?_⟩
  · rw [hcolq]; exact hcol
  · rw [hvq]; exact hvis
  · have : e'.visuals.isSome = true := hvp (by rw [hvl]; rfl)
    exact Option.isSome_iff_exists.mp this

/-- Insertion preserves the normal form of every stored section. -/
theorem insertSection_sanitized (s : CandSection) (hs : SanitizedSec s)
    (acc acc' : List CandSection) (h : UseHistory.insertSection s acc = .ok acc')
    (hall : ∀ e ∈ acc, SanitizedSec e) : ∀ e ∈ acc', SanitizedSec e := by
  rcases insertSection_cases s acc acc' h with ⟨_, rfl⟩ | ⟨pre, e0, e0', post, rfl, rfl, hm, _⟩
  · intro e he
    rcases List.mem_append.mp he with h1 | h2
    · exact hall e h1
    · rw [List.mem_singleton] at h2
      subst h2
      exact hs
  · intro e he
    rcases List.mem_append.mp he with h1 | h2
    · exact hall e (List.mem_append.mpr (Or.inl h1))
    · rcases List.mem_cons.mp h2 with rfl | h3
      · exact mergeSections_sanitized e0 s e hm (hall e0 (by simp))
      · exact hall e (by simp [h3])

/-- The normalization loop succeeds when every section carries a content
string. -/
theorem hLoop_ok_contents (gen : Nat → String) : ∀ (rest : List CandSection) (n : Nat)
    (acc : List CandSection), (∀ e ∈ acc, e.content.isSome = true) →
    (∀ s ∈ rest, s.content.isSome = true) →
    ∃ out, UseHistory.hLoop gen n acc rest = .ok out := by
  intro rest
  induction rest with
  | nil =>
    intro n acc _ _
    exact ⟨acc, rfl⟩
  | cons s rest ih =>
    intro n acc hacc hrest
    have hsc : ((UseHistory.hSectionStep gen n s).1).content.isSome = true := by
      rw [(hSectionStep_spec gen n s).2.2]
      exact hrest s (List.mem_cons_self s rest)
    obtain ⟨acc', hins, hallacc'⟩ := insertSection_ok_contents _ hsc acc hacc
    obtain ⟨out, hout⟩ := ih (UseHistory.hSectionStep gen n s).2 acc' hallacc'
      (fun x hx => hrest x (List.mem_cons_of_mem s hx))
    refine ⟨out, ?_⟩
    rw [hLoop_cons, hins]
    exact hout

/-- The normalization loop keeps the normalized-title keys duplicate-free
and loses no key: every stored key and every incoming section's key occurs
in the output. -/
theorem hLoop_keys (gen : Nat → String) : ∀ (rest : List CandSection) (n : Nat)
    (acc out : List CandSection), UseHistory.hLoop gen n acc rest = .ok out →
    (acc.map UseHistory.normKey).Nodup →
    ((out.map UseHistory.normKey).Nodup ∧
     (∀ k, k ∈ acc.map UseHistory.normKey → k ∈ out.map UseHistory.normKey) ∧
     (∀ s ∈ rest, UseHistory.normKey s ∈ out.map UseHistory.normKey)) := by
  intro rest
  induction rest with
  | nil =>
    intro n acc out h hnd
    cases h
    exact ⟨hnd, fun _ hk => hk, by simp⟩
  | cons s rest ih =>
    intro n acc out h hnd
    rw [hLoop_cons] at h
    rcases hins : UseHistory.insertSection (UseHistory.hSectionStep gen n s).1 acc with u | acc'
    · rw [hins] at h; cases h
    · rw [hins] at h
      have hkeyeq : UseHistory.normKey (UseHistory.hSectionStep gen n s).1 =
          UseHistory.normKey s := by
        unfold UseHistory.normKey
        rw [(hSectionStep_spec gen n s).2.1]
      rcases insertSection_keys _ acc acc' hins with ⟨heq, hmem⟩ | ⟨heq, hnot⟩
      · have hnd' : (acc'.map UseHistory.normKey).Nodup := by rw [heq]; exact hnd
        obtain ⟨h1, h2, h3⟩ := ih _ acc' out h hnd'
        refine ⟨h1, fun k hk => h2 k (by rw [heq]; exact hk), ?_⟩
        intro x hx
        rcases List.mem_cons.mp hx with rfl | hx2
        · refine h2 _ ?_
          rw [heq]
          rw [hkeyeq] at hmem
          exact hmem
        · exact h3 x hx2
      · have hnd' : (acc'.map UseHistory.normKey).Nodup := by
          rw [heq]
          refine List.Nodup.append hnd (List.nodup_singleton _) ?_
          intro a ha hb
          rw [List.mem_singleton] at hb
          subst hb
          exact hnot ha
        obtain ⟨h1, h2, h3⟩ := ih _ acc' out h hnd'
        refine ⟨h1, fun k hk => h2 k (by rw [heq]; exact List.mem_append_left _ hk), ?_⟩
        intro x hx
        rcases List.mem_cons.mp hx with rfl | hx2
        · refine h2 _ ?_
          rw [heq, ← hkeyeq]
          exact List.mem_append_right _ (List.mem_singleton_self _)
        · exact h3 x hx2

/-- Every section of a successful normalization is in normal form. -/
theorem hLoop_sanitized (gen : Nat → String) : ∀ (rest : List CandSection) (n : Nat)
    (acc out : List CandSection), UseHistory.hLoop gen n acc rest = .ok out →
    (∀ e ∈ acc, SanitizedSec e) → ∀ e ∈ out, SanitizedSec e := by
  intro rest
  induction rest with
  | nil =>
    intro n acc out h hall
    cases h
    exact hall
  | cons s rest ih =>
    intro n acc out h hall
    rw [hLoop_cons] at h
    rcases hins : UseHistory.insertSection (UseHistory.hSectionStep gen n s).1 acc with u | acc'
    · rw [hins] at h; cases h
    · rw [hins] at h
      exact ih _ acc' out h
        (insertSection_sanitized _ (hSectionStep_spec gen n s).1 acc acc' hins hall)

/-- Coercing an already-normal column is the identity: `"1"` case. -/
theorem sanitizeColumn_one (t : Option String) : sanitizeColumn (some "1") t = "1" := by
  rw [sanitizeColumn_eq]
  have h : strippedColumn (some "1") = "1" := by decide
  rw [h, if_pos (Or.inl rfl)]

/-- Coercing an already-normal column is the identity: `"2"` case. -/
theorem sanitizeColumn_two (t : Option String) : sanitizeColumn (some "2") t = "2" := by
  rw [sanitizeColumn_eq]
  have h : strippedColumn (some "2") = "2" := by decide
  rw [h, if_pos (Or.inr rfl)]

/-- A section already in normal form passes the per-section step
unchanged, consuming no id. -/
theorem hSectionStep_fixed (gen : Nat → String) (n : Nat) (s : CandSection)
    (hs : SanitizedSec s) : UseHistory.hSectionStep gen n s = (s, n) := by
  obtain ⟨⟨i, hid, hine⟩, hcol, hvis, l, hvl⟩ := hs
  obtain ⟨sid, stitle, scontent, scol, svis, svisl, sdes⟩ := s
  dsimp only at hid hvl hcol hvis ⊢
  subst hid
  subst hvl
  rcases hvis with hnone | ⟨v, hv, hfv⟩
  · subst hnone
    rcases hcol with hcol | hcol
    · subst hcol
      unfold UseHistory.hSectionStep
      dsimp only
      rw [if_neg hine]
      dsimp only
      rw [sanitizeColumn_one]
      rfl
    · subst hcol
      unfold UseHistory.hSectionStep
      dsimp only
      rw [if_neg hine]
      dsimp only
      rw [sanitizeColumn_two]
      rfl
  · subst hv
    have hfv' : ¬jTruthy v = true := by simp [hfv]
    rcases hcol with hcol | hcol
    · subst hcol
      unfold UseHistory.hSectionStep
      dsimp only
      rw [if_neg hine]
      dsimp only
      rw [sanitizeColumn_one]
      unfold migrateVisual ensureVisuals
      dsimp only
      rw [if_neg hfv']
      rfl
    · subst hcol
      unfold UseHistory.hSectionStep
      dsimp only
      rw [if_neg hine]
      dsimp only
      rw [sanitizeColumn_two]
      unfold migrateVisual ensureVisuals
      dsimp only
      rw [if_neg hfv']
      rfl

/-- Re-running the loop over an already-normalized, duplicate-free section
list appends every section unchanged. -/
theorem hLoop_fixed (gen : Nat → String) : ∀ (rest : List CandSection) (n : Nat)
    (acc : List CandSection),
    (((acc ++ rest).map UseHistory.normKey).Nodup) →
    (∀ s ∈ rest, SanitizedSec s) →
    UseHistory.hLoop gen n acc rest = .ok (acc ++ rest) := by
  intro rest
  induction rest with
  | nil =>
    intro n acc _ _
    rw [List.append_nil]
    rfl
  | cons s rest ih =>
    intro n acc hnd hall
    have hnot : UseHistory.normKey s ∉ acc.map UseHistory.normKey := by
      intro hmem
      rw [List.map_append] at hnd
      obtain ⟨_, _, hdisj⟩ := List.nodup_append.mp hnd
      exact hdisj hmem (by simp)
    rw [hLoop_cons, hSectionStep_fixed gen n s (hall s (List.mem_cons_self s rest))]
    rw [show ((s, n).1 : CandSection) = s from rfl, show ((s, n).2 : Nat) = n from rfl]
    rw [insertSection_not_mem s acc hnot]
    dsimp only
    have hnd' : (((acc ++ [s]) ++ rest).map UseHistory.normKey).Nodup := by
      rw [List.append_assoc, List.singleton_append]
      exact hnd
    rw [ih n (acc ++ [s]) hnd' (fun x hx => hall x (List.mem_cons_of_mem s hx))]
    rw [List.append_assoc, List.singleton_append]

/-- Unfolding equation for the cons case of the generation-1 dedup loop. -/
theorem gDedupLoop_cons (seen : List String) (s : CandSection) (rest : List CandSection) :
    GeminiService.gDedupLoop seen (s :: rest) =
      if GeminiService.fingerprint (GeminiService.gSectionStep s) ∈ seen then
        GeminiService.gDedupLoop seen rest
      else GeminiService.gSectionStep s ::
        GeminiService.gDedupLoop
          (GeminiService.fingerprint (GeminiService.gSectionStep s) :: seen) rest := rfl

/-- The generation-1 per-section step normalizes the section and keeps its
fingerprint. -/
theorem gSectionStep_spec (s : CandSection) :
    GSanitized (GeminiService.gSectionStep s) ∧
    GeminiService.fingerprint (GeminiService.gSectionStep s) = GeminiService.fingerprint s := by
  obtain ⟨sid, stitle, scontent, scol, svis, svisl, sdes⟩ := s
  unfold GeminiService.gSectionStep migrateVisual ensureVisuals
  dsimp only
  rcases svisl with _ | v
  · dsimp only
    exact ⟨⟨(sanitizeColumn_cases _ _).imp (congrArg some) (congrArg some),
      Or.inl rfl, _, rfl⟩, rfl⟩
  · dsimp only
    by_cases htv : jTruthy v = true
    · rw [if_pos htv]
      exact ⟨⟨(sanitizeColumn_cases _ _).imp (congrArg some) (congrArg some),
        Or.inl rfl, _, rfl⟩, rfl⟩
    · rw [if_neg htv]
      exact ⟨⟨(sanitizeColumn_cases _ _).imp (congrArg some) (congrArg some),
        Or.inr ⟨v, rfl, by simpa using htv⟩, _, rfl⟩, rfl⟩

/-- A section already in generation-1 normal form passes the step
unchanged. -/
theorem gSectionStep_fixed (s : CandSection) (hs : GSanitized s) :
    GeminiService.gSectionStep s = s := by
  obtain ⟨hcol, hvis, l, hvl⟩ := hs
  obtain ⟨sid, stitle, scontent, scol, svis, svisl, sdes⟩ := s
  dsimp only at hcol hvis hvl
  subst hvl
  unfold GeminiService.gSectionStep
  dsimp only
  rcases hvis with hnone | ⟨v, hv, hfv⟩
  · subst hnone
    rcases hcol with hcol | hcol
    · subst hcol
      rw [sanitizeColumn_one]
      rfl
    · subst hcol
      rw [sanitizeColumn_two]
      rfl
  · subst hv
    have hfv' : ¬jTruthy v = true := by simp [hfv]
    rcases hcol with hcol | hcol
    · subst hcol
      rw [sanitizeColumn_one]
      unfold migrateVisual ensureVisuals
      dsimp only
      rw [if_neg hfv']
      rfl
    · subst hcol
      rw [sanitizeColumn_two]
      unfold migrateVisual ensureVisuals
      dsimp only
      rw [if_neg hfv']
      rfl

/-- The generation-1 dedup loop emits pairwise-distinct fingerprints,
none previously seen, all sections in normal form. -/
theorem gDedupLoop_spec : ∀ (l : List CandSection) (seen : List String),
    ((GeminiService.gDedupLoop seen l).map GeminiService.fingerprint).Nodup ∧
    (∀ fp ∈ (GeminiService.gDedupLoop seen l).map GeminiService.fingerprint, fp ∉ seen) ∧
    (∀ x ∈ GeminiService.gDedupLoop seen l, GSanitized x) := by
  intro l
  induction l with
  | nil =>
    intro seen
    exact ⟨List.nodup_nil, fun fp hfp => absurd hfp (List.not_mem_nil fp),
      fun x hx => absurd hx (List.not_mem_nil x)⟩
  | cons s rest ih =>
    intro seen
    by_cases hmem : GeminiService.fingerprint (GeminiService.gSectionStep s) ∈ seen
    · rw [gDedupLoop_cons, if_pos hmem]
      exact ih seen
    · rw [gDedupLoop_cons, if_neg hmem]
      obtain ⟨h1, h2, h3⟩ := ih (GeminiService.fingerprint (GeminiService.gSectionStep s) :: seen)
      refine ⟨?_, ?_, ?_⟩
      · rw [List.map_cons]
        refine List.nodup_cons.mpr ⟨?_, h1⟩
        intro hmem2
        exact (h2 _ hmem2) (List.mem_cons_self _ _)
      · intro fp hfp
        rw [List.map_cons, List.mem_cons] at hfp
        rcases hfp with rfl | hfp2
        · exact hmem
        · intro hseen
          exact (h2 _ hfp2) (List.mem_cons_of_mem _ hseen)
      · intro x hx
        rcases List.mem_cons.mp hx with rfl | hx2
        · exact (gSectionStep_spec s).1
        · exact h3 x hx2

/-- The generation-1 dedup loop fixes any list of normal-form sections
with pairwise-distinct fingerprints disjoint from the seen set. -/
theorem gDedupLoop_fixed : ∀ (l : List CandSection) (seen : List String),
    (∀ x ∈ l, GeminiService.gSectionStep x = x) →
    ((l.map GeminiService.fingerprint).Nodup) →
    (∀ fp ∈ l.map GeminiService.fingerprint, fp ∉ seen) →
    GeminiService.gDedupLoop seen l = l := by
  intro l
  induction l with
  | nil =>
    intro seen _ _ _
    rfl
  | cons s rest ih =>
    intro seen hfix hnd hdis
    have hfs : GeminiService.gSectionStep s = s := hfix s (List.mem_cons_self s rest)
    rw [gDedupLoop_cons, hfs, if_neg (hdis _ (by simp))]
    congr 1
    rw [List.map_cons, List.nodup_cons] at hnd
    refine ih _ (fun x hx => hfix x (List.mem_cons_of_mem s hx)) hnd.2 ?_
    intro fp hfp hmem
    rcases List.mem_cons.mp hmem with rfl | hseen
    · exact hnd.1 hfp
    · exact hdis fp (by simp [hfp]) hseen

/-- A no-op record update on the sections field of a candidate. -/
theorem candSetSections_self (c : Candidate) (x : Option (List CandSection))
    (h : c.sections = x) : { c with sections := x } = c := by
  obtain ⟨a, b, u, dp, th, se, ci, ll, rl, w⟩ := c
  cases h
  rfl

/-- A list is contained in itself followed by anything. -/
theorem listContains_append_pre (a b : List Char) : listContains a (a ++ b) = true := by
  have hp : a.isPrefixOf (a ++ b) = true :=
    List.isPrefixOf_iff_prefix.mpr (List.prefix_append a b)
  rcases hab : a ++ b with _ | ⟨c, rest⟩
  · obtain ⟨rfl, rfl⟩ := List.append_eq_nil.mp hab
    rfl
  · rw [hab] at hp
    show (a.isPrefixOf (c :: rest) || listContains a rest) = true
    rw [hp]
    exact Bool.true_or _

/-- A list is contained in anything followed by itself. -/
theorem listContains_append_suf (b : List Char) : ∀ (x : List Char),
    listContains b (x ++ b) = true := by
  intro x
  induction x with
  | nil =>
    have := listContains_append_pre b []
    rw [List.append_nil] at this
    exact this
  | cons c x ih =>
    show (b.isPrefixOf (c :: (x ++ b)) || listContains b (x ++ b)) = true
    rw [ih]
    exact Bool.or_true _

/-- A string contains its own prefix half. -/
theorem strContains_left (a b : String) : strContains (a ++ b) a = true := by
  unfold strContains
  rw [String.data_append]
  exact listContains_append_pre a.data b.data

/-- A string contains its own suffix half. -/
theorem strContains_right (a b : String) : strContains (a ++ b) b = true := by
  unfold strContains
  rw [String.data_append]
  exact listContains_append_suf b.data a.data

/-- The per-section step materializes the visuals list when there is no
singular `visual` to migrate. -/
theorem hSectionStep_visuals_none (gen : Nat → String) (n : Nat) (s : CandSection)
    (h : s.visual = none) :
    ((UseHistory.hSectionStep gen n s).1).visuals = some (s.visuals.getD []) := by
  obtain ⟨sid, stitle, scontent, scol, svis, svisl, sdes⟩ := s
  dsimp only at h
  subst h
  unfold UseHistory.hSectionStep migrateVisual ensureVisuals
  rcases sid with _ | i
  · rfl
  · dsimp only
    by_cases hie : i = ""
    · rw [if_pos hie]
    · rw [if_neg hie]

/-- The per-section step on an id-less section assigns the next generated
id and advances the supply. -/
theorem hSectionStep_id_none (gen : Nat → String) (n : Nat) (s : CandSection)
    (h : s.id = none) :
    ((UseHistory.hSectionStep gen n s).1).id = some (UseHistory.mkId (gen n)) ∧
    (UseHistory.hSectionStep gen n s).2 = n + 1 := by
  obtain ⟨sid, stitle, scontent, scol, svis, svisl, sdes⟩ := s
  dsimp only at h
  subst h
  unfold UseHistory.hSectionStep migrateVisual ensureVisuals
  dsimp only
  rcases svisl with _ | v
  · exact ⟨rfl, rfl⟩
  · dsimp only
    by_cases htv : jTruthy v = true
    · rw [if_pos htv]
      exact ⟨rfl, rfl⟩
    · rw [if_neg htv]
      exact ⟨rfl, rfl⟩

/-- Explicit form of a successful merge with appended content. -/
theorem mergeSections_explicit (e s : CandSection) (ec c : String)
    (he : e.content = some ec) (hsc : s.content = some c) (hc0 : c ≠ "")
    (hcont : strContains ec (String.mk (c.data.take 50)) = false) :
    UseHistory.mergeSections e s = .ok { e with
      content := some (ec ++ "\n\n" ++ c)
      visuals :=
        if (s.visuals.getD []).isEmpty then e.visuals
        else some (e.visuals.getD [] ++ s.visuals.getD []) } := by
  unfold UseHistory.mergeSections UseHistory.mergeContentField
  rw [hsc]
  dsimp only
  rw [if_neg hc0, he]
  dsimp only
  rw [if_neg (by simp [hcont])]

/-- Re-injecting a document exposes its sections unchanged. -/
theorem toCandidate_sections_getD (d : PosterDoc) :
    (toCandidate d).sections.getD [] = d.sections := rfl

/-- The ids assigned along the loop: when every incoming section lacks an
id, the output ids are generated from pairwise-distinct supply indices. -/
theorem hLoop_ids (gen : Nat → String) : ∀ (rest : List CandSection) (n : Nat)
    (acc out : List CandSection) (ks : List Nat),
    UseHistory.hLoop gen n acc rest = .ok out →
    (∀ s ∈ rest, s.id = none) →
    acc.map (fun x => x.id) = ks.map (fun k => some (UseHistory.mkId (gen k))) →
    ks.Nodup → (∀ k ∈ ks, k < n) →
    ∃ ks' : List Nat, ks'.Nodup ∧ (∀ k ∈ ks', k < n + rest.length) ∧
      out.map (fun x => x.id) = ks'.map (fun k => some (UseHistory.mkId (gen k))) := by
  intro rest
  induction rest with
  | nil =>
    intro n acc out ks h _ hacc hnd hbound
    cases h
    exact ⟨ks, hnd, fun k hk => by simpa using hbound k hk, hacc⟩
  | cons s rest ih =>
    intro n acc out ks h hids hacc hnd hbound
    rw [hLoop_cons] at h
    obtain ⟨hsid, hsn⟩ := hSectionStep_id_none gen n s (hids s (List.mem_cons_self s rest))
    rcases hins : UseHistory.insertSection (UseHistory.hSectionStep gen n s).1 acc with u | acc'
    · rw [hins] at h; cases h
    · rw [hins] at h
      rcases insertSection_ids _ acc acc' hins with heq | heq
      · obtain ⟨ks', h1, h2, h3⟩ := ih (UseHistory.hSectionStep gen n s).2 acc' out ks h
          (fun x hx => hids x (List.mem_cons_of_mem s hx))
          (by rw [heq, hacc]) hnd
          (fun k hk => by rw [hsn]; exact Nat.lt_succ_of_lt (hbound k hk))
        refine ⟨ks', h1, ?_, h3⟩
        intro k hk
        have hb := h2 k hk
        rw [hsn] at hb
        simp only [List.length_cons]
        omega
      · obtain ⟨ks', h1, h2, h3⟩ := ih (UseHistory.hSectionStep gen n s).2 acc' out (ks ++ [n]) h
          (fun x hx => hids x (List.mem_cons_of_mem s hx))
          (by rw [heq, hacc, hsid]; simp)
          (by
            refine List.Nodup.append hnd (List.nodup_singleton _) ?_
            intro a ha hb
            rw [List.mem_singleton] at hb
            subst hb
            exact Nat.lt_irrefl _ (hbound _ ha))
          (by
            intro k hk
            rw [hsn]
            rcases List.mem_append.mp hk with hk1 | hk2
            · exact Nat.lt_succ_of_lt (hbound k hk1)
            · rw [List.mem_singleton] at hk2
              subst hk2
              exact Nat.lt_succ_self _)
        refine ⟨ks', h1, ?_, h3⟩
        intro k hk
        have hb := h2 k hk
        rw [hsn] at hb
        simp only [List.length_cons]
        omega

/-- C3 counterexample: the generation-1 sanitizer (`geminiService.ts`)
dedups on the title+content fingerprint, so two sections titled `Results`
with different contents both survive — the output has two sections with
the same normalized title; and an exact duplicate (same title and content)
is silently dropped rather than merged. -/
theorem claim_C3_counterexample :
    ((GeminiService.sanitizeData
        { sections := some [
            { title := some "Results", content := some "p1" },
            { title := some "Results", content := some "p2" }] }).sections.getD []).map
      UseHistory.normKey = [some "results", some "results"] ∧
    ((GeminiService.sanitizeData
        { sections := some [
            { title := some "Results", content := some "p1" },
            { title := some "Results", content := some "p1" }] }).sections.getD []).length
      = 1 := by decide

/-- C3 (amended): the generation-2 sanitizer (`useHistory.ts`) enforces
the invariant — its output sections have pairwise-distinct normalized
titles, and every input section's normalized title survives into the
output (sections are merged, never dropped); the generation-1 sanitizer
dedups on title+content instead and violates the invariant. -/
theorem claim_C3 (gen : Nat → String) (c : Candidate) (d : PosterDoc)
    (h : UseHistory.sanitizeData gen c = .ok d) :
    (d.sections.map UseHistory.normKey).Nodup ∧
    (∀ s ∈ c.sections.getD [], UseHistory.normKey s ∈ d.sections.map UseHistory.normKey) := by
  unfold UseHistory.sanitizeData at h
  rcases hl : UseHistory.hLoop gen 0 [] (c.sections.getD []) with u | out
  · rw [hl] at h; cases h
  · rw [hl] at h
    cases h
    obtain ⟨h1, _, h3⟩ := hLoop_keys gen _ 0 [] out hl List.nodup_nil
    exact ⟨h1, h3⟩

/-- Witness for C3 on a two-section duplicate-title document. -/
theorem claim_C3_witness :
    (([⟨some "a", some "Results", some "p1\n\np2", some "1", some [], none, none⟩] :
        List CandSection).map UseHistory.normKey).Nodup ∧
    (∀ s ∈ (({ sections := some [
        ⟨some "a", some "Results", some "p1", some "1", none, none, none⟩,
        ⟨some "b", some "results ", some "p2", some "1", none, none, none⟩] } :
          Candidate).sections.getD []),
      UseHistory.normKey s ∈
        ([⟨some "a", some "Results", some "p1\n\np2", some "1", some [], none, none⟩] :
          List CandSection).map UseHistory.normKey) :=
  claim_C3 (fun _ => "w3")
    { sections := some [
        ⟨some "a", some "Results", some "p1", some "1", none, none, none⟩,
        ⟨some "b", some "results ", some "p2", some "1", none, none, none⟩] }
    ⟨"Untitled Poster", [], "Unknown University", "Unknown Department", defaultTheme,
      [⟨some "a", some "Results", some "p1\n\np2", some "1", some [], none, none⟩],
      defaultContact, "", "", []⟩ rfl

/-- C4 counterexample: two sections titled `Results` whose contents agree
on the first 50 characters and differ at character 51.  The reconciler
tests only the 50-character prefix, so the second content is dropped: the
merged section's content list is just the first content, which does not
contain the second — refuting "the content includes both A and B". -/
theorem claim_C4_counterexample :
    ((UseHistory.sanitizeData (fun _ => "g4")
        { sections := some [
            { id := some "i1", title := some "Results",
              content := some (String.mk (List.replicate 50 'a') ++ "1") },
            { id := some "i2", title := some "Results",
              content := some (String.mk (List.replicate 50 'a') ++ "2") }] }).toOption.map
      (fun d => d.sections.map (fun sec => sec.content))) =
      some [some (String.mk (List.replicate 50 'a') ++ "1")] ∧
    strContains (String.mk (List.replicate 50 'a') ++ "1")
      (String.mk (List.replicate 50 'a') ++ "2") = false := by decide

/-- C4 (amended): for two sections with identical normalized titles,
distinct contents `A` and `B`, and no singular `visual` field, the
title-keyed reconciler produces a single section whose content contains
both `A` and `B` and whose visuals list length is the sum of the two
inputs' — provided `B` is nonempty and the first 50 characters of `B` do
not already occur in `A` (when they do, `B` is discarded even if it
differs beyond character 50: see the counterexample). -/
theorem claim_C4 (gen : Nat → String) (s1 s2 : CandSection) (A B : String)
    (hc1 : s1.content = some A) (hc2 : s2.content = some B)
    (hkey : UseHistory.normKey s1 = UseHistory.normKey s2)
    (hv1 : s1.visual = none) (hv2 : s2.visual = none)
    (hBne : B ≠ "")
    (hpre : strContains A (String.mk (B.data.take 50)) = false) :
    ∃ sec : CandSection,
      UseHistory.sanitizeData gen { sections := some [s1, s2] } =
        .ok { title := "Untitled Poster", authors := [], university := "Unknown University",
              department := "Unknown Department", theme := defaultTheme, sections := [sec],
              contactInfo := defaultContact, leftLogoUrl := "", rightLogoUrl := "",
              warnings := [] } ∧
      sec.content = some (A ++ "\n\n" ++ B) ∧
      (sec.visuals.getD []).length =
        (s1.visuals.getD []).length + (s2.visuals.getD []).length ∧
      strContains (A ++ "\n\n" ++ B) A = true ∧
      strContains (A ++ "\n\n" ++ B) B = true := by
  obtain ⟨hsan1, ht1, hcnt1⟩ := hSectionStep_spec gen 0 s1
  obtain ⟨hsan2, ht2, hcnt2⟩ := hSectionStep_spec gen (UseHistory.hSectionStep gen 0 s1).2 s2
  have hv1' := hSectionStep_visuals_none gen 0 s1 hv1
  have hv2' := hSectionStep_visuals_none gen (UseHistory.hSectionStep gen 0 s1).2 s2 hv2
  have hc1' : ((UseHistory.hSectionStep gen 0 s1).1).content = some A := by rw [hcnt1, hc1]
  have hc2' : ((UseHistory.hSectionStep gen (UseHistory.hSectionStep gen 0 s1).2 s2).1).content
      = some B := by rw [hcnt2, hc2]
  have hkey' : UseHistory.normKey (UseHistory.hSectionStep gen 0 s1).1 =
      UseHistory.normKey (UseHistory.hSectionStep gen (UseHistory.hSectionStep gen 0 s1).2 s2).1 := by
    unfold UseHistory.normKey at hkey ⊢
    rw [ht1, ht2]
    exact hkey
  have hmerge := mergeSections_explicit _ _ A B hc1' hc2' hBne hpre
  refine ⟨{ (UseHistory.hSectionStep gen 0 s1).1 with
      content := some (A ++ "\n\n" ++ B)
      visuals :=
        if (((UseHistory.hSectionStep gen (UseHistory.hSectionStep gen 0 s1).2 s2).1).visuals.getD
            []).isEmpty
        then ((UseHistory.hSectionStep gen 0 s1).1).visuals
        else some ((((UseHistory.hSectionStep gen 0 s1).1).visuals.getD []) ++
          (((UseHistory.hSectionStep gen
            (UseHistory.hSectionStep gen 0 s1).2 s2).1).visuals.getD [])) },
    ?_, rfl, ?_, ?_, ?_⟩
  · unfold UseHistory.sanitizeData
    rw [show ({ sections := some [s1, s2] } : Candidate).sections.getD [] = [s1, s2] from rfl]
    rw [hLoop_cons]
    rw [show UseHistory.insertSection (UseHistory.hSectionStep gen 0 s1).1 [] =
      .ok [(UseHistory.hSectionStep gen 0 s1).1] from rfl]
    dsimp only
    rw [hLoop_cons]
    rw [insertSection_cons, if_pos hkey']
    rw [hmerge]
    dsimp only
    rfl
  · rw [hv1', hv2']
    dsimp only [Option.getD_some]
    by_cases hemp : ((s2.visuals.getD [] : List JVal)).isEmpty = true
    · rw [if_pos hemp]
      rw [List.isEmpty_iff] at hemp
      rw [hemp]
      simp
    · rw [if_neg hemp]
      simp [List.length_append]
  · rw [String.append_assoc]
    exact strContains_left A ("\n\n" ++ B)
  · exact strContains_right (A ++ "\n\n") B

/-- Witness for C4 on concrete sections `R`/`r` with contents
`hello`/`world` and one visual on the duplicate. -/
theorem claim_C4_witness :
    ∃ sec : CandSection,
      UseHistory.sanitizeData (fun _ => "w4")
          { sections := some [
              ⟨some "x1", some "R", some "hello", some "1", none, none, none⟩,
              ⟨some "x2", some "r", some "world", some "1", some [JVal.jnull], none, none⟩] } =
        .ok { title := "Untitled Poster", authors := [], university := "Unknown University",
              department := "Unknown Department", theme := defaultTheme, sections := [sec],
              contactInfo := defaultContact, leftLogoUrl := "", rightLogoUrl := "",
              warnings := [] } ∧
      sec.content = some ("hello" ++ "\n\n" ++ "world") ∧
      (sec.visuals.getD []).length =
        ((⟨some "x1", some "R", some "hello", some "1", none, none, none⟩ :
          CandSection).visuals.getD []).length +
        ((⟨some "x2", some "r", some "world", some "1", some [JVal.jnull], none, none⟩ :
          CandSection).visuals.getD []).length ∧
      strContains ("hello" ++ "\n\n" ++ "world") "hello" = true ∧
      strContains ("hello" ++ "\n\n" ++ "world") "world" = true :=
  claim_C4 (fun _ => "w4")
    ⟨some "x1", some "R", some "hello", some "1", none, none, none⟩
    ⟨some "x2", some "r", some "world", some "1", some [JVal.jnull], none, none⟩
    "hello" "world" rfl rfl (by decide) rfl rfl (by decide) (by decide)

/-- C6: normalization is idempotent in both generations.  Generation 1
(`geminiService.ts`) maps candidates to candidates, and applying it twice
equals applying it once; generation 2 (`useHistory.ts`) maps a candidate
to a document, and re-normalizing any document it produced (with any id
supply) succeeds and returns that document unchanged. -/
theorem claim_C6 :
    (∀ c : Candidate, GeminiService.sanitizeData (GeminiService.sanitizeData c) =
      GeminiService.sanitizeData c) ∧
    (∀ (gen gen' : Nat → String) (c : Candidate) (d : PosterDoc),
      UseHistory.sanitizeData gen c = .ok d →
      UseHistory.sanitizeData gen' (toCandidate d) = .ok d) := by
  constructor
  · intro c
    unfold GeminiService.sanitizeData
    rcases hsec : c.sections with _ | secs
    · rw [hsec]
    · dsimp only
      obtain ⟨hnd, hseen, hsan⟩ := gDedupLoop_spec secs []
      rw [gDedupLoop_fixed (GeminiService.gDedupLoop [] secs) []
        (fun x hx => gSectionStep_fixed x (hsan x hx)) hnd
        (fun fp hfp hmem => absurd hmem (List.not_mem_nil fp))]
  · intro gen gen' c d h
    unfold UseHistory.sanitizeData at h
    rcases hl : UseHistory.hLoop gen 0 [] (c.sections.getD []) with u | out
    · rw [hl] at h; cases h
    · rw [hl] at h
      obtain ⟨hnd, -, -⟩ := hLoop_keys gen _ 0 [] out hl List.nodup_nil
      have hsan := hLoop_sanitized gen _ 0 [] out hl (fun e he => absurd he (List.not_mem_nil e))
      cases h
      unfold UseHistory.sanitizeData
      rw [toCandidate_sections_getD]
      dsimp only
      rw [hLoop_fixed gen' out 0 [] (by exact hnd) (fun s hs => hsan s hs)]
      rfl

/-- Witness for C6: idempotence observed on the empty candidate in both
generations. -/
theorem claim_C6_witness :
    GeminiService.sanitizeData (GeminiService.sanitizeData {}) = GeminiService.sanitizeData {} ∧
    UseHistory.sanitizeData (fun _ => "b")
        (toCandidate ⟨"Untitled Poster", [], "Unknown University", "Unknown Department",
          defaultTheme, [], defaultContact, "", "", []⟩) =
      .ok ⟨"Untitled Poster", [], "Unknown University", "Unknown Department",
          defaultTheme, [], defaultContact, "", "", []⟩ :=
  ⟨claim_C6.1 {}, claim_C6.2 (fun _ => "a") (fun _ => "b") {}
    ⟨"Untitled Poster", [], "Unknown University", "Unknown Department",
      defaultTheme, [], defaultContact, "", "", []⟩ rfl⟩

/-- C9 counterexample: the id source is `Math.random()` plus the
millisecond clock; when the source repeats (here: a constant supply), two
sections lacking ids receive the SAME id in one normalization run — the
code has no per-run uniqueness guard, so uniqueness is only as good as the
randomness. -/
theorem claim_C9_counterexample :
    ((UseHistory.sanitizeData (fun _ => "r")
        { sections := some [{ title := some "A" }, { title := some "B" }] }).toOption.map
      (fun d => d.sections.map (fun s => s.id))) =
      some [some "section-r", some "section-r"] := by decide

/-- C9 (amended): every section lacking an id is assigned a non-empty id,
and two normalization runs produce no collision across the whole document
PROVIDED the random-fragment supplies are injective and mutually disjoint;
without that proviso ids collide (counterexample), since the generator has
no uniqueness guard. -/
theorem claim_C9 (gen1 gen2 : Nat → String) (c1 c2 : Candidate) (d1 d2 : PosterDoc)
    (hno1 : ∀ s ∈ c1.sections.getD [], s.id = none)
    (hno2 : ∀ s ∈ c2.sections.getD [], s.id = none)
    (hinj1 : ∀ i j, gen1 i = gen1 j → i = j)
    (hinj2 : ∀ i j, gen2 i = gen2 j → i = j)
    (hdisj : ∀ i j, gen1 i ≠ gen2 j)
    (h1 : UseHistory.sanitizeData gen1 c1 = .ok d1)
    (h2 : UseHistory.sanitizeData gen2 c2 = .ok d2) :
    (∀ s ∈ d1.sections, s.id.getD "" ≠ "") ∧
    ((d1.sections.map fun s => s.id.getD "") ++
      (d2.sections.map fun s => s.id.getD "")).Nodup := by
  unfold UseHistory.sanitizeData at h1 h2
  rcases hl1 : UseHistory.hLoop gen1 0 [] (c1.sections.getD []) with u | out1
  · rw [hl1] at h1; cases h1
  rcases hl2 : UseHistory.hLoop gen2 0 [] (c2.sections.getD []) with u | out2
  · rw [hl2] at h2; cases h2
  rw [hl1] at h1
  rw [hl2] at h2
  cases h1
  cases h2
  dsimp only
  obtain ⟨ks1, hnd1, -, hmap1⟩ := hLoop_ids gen1 (c1.sections.getD []) 0 [] out1 [] hl1 hno1 rfl
    List.nodup_nil (fun k hk => absurd hk (List.not_mem_nil k))
  obtain ⟨ks2, hnd2, -, hmap2⟩ := hLoop_ids gen2 (c2.sections.getD []) 0 [] out2 [] hl2 hno2 rfl
    List.nodup_nil (fun k hk => absurd hk (List.not_mem_nil k))
  have e1 : out1.map (fun s => s.id.getD "") = ks1.map (fun k => UseHistory.mkId (gen1 k)) := by
    have h' := congrArg (fun l : List (Option String) => l.map (fun o => o.getD "")) hmap1
    simp only [List.map_map] at h'
    exact h'
  have e2 : out2.map (fun s => s.id.getD "") = ks2.map (fun k => UseHistory.mkId (gen2 k)) := by
    have h' := congrArg (fun l : List (Option String) => l.map (fun o => o.getD "")) hmap2
    simp only [List.map_map] at h'
    exact h'
  constructor
  · intro s hs
    have hmem : s.id.getD "" ∈ out1.map (fun s => s.id.getD "") :=
      List.mem_map_of_mem _ hs
    rw [e1] at hmem
    obtain ⟨k, -, hk⟩ := List.mem_map.1 hmem
    rw [← hk]
    exact mkId_ne_empty (gen1 k)
  · rw [e1, e2]
    refine List.Nodup.append ?_ ?_ ?_
    · exact hnd1.map (fun i j hij => hinj1 i j (mkId_inj _ _ hij))
    · exact hnd2.map (fun i j hij => hinj2 i j (mkId_inj _ _ hij))
    · intro a ha1 ha2
      obtain ⟨i, -, hi⟩ := List.mem_map.1 ha1
      obtain ⟨j, -, hj⟩ := List.mem_map.1 ha2
      exact hdisj i j (mkId_inj _ _ (hi.trans hj.symm))

/-- Witness for C9 with injective, disjoint supplies (odd- and even-length
fragments) on two one-section candidates. -/
theorem claim_C9_witness :
    (∀ s ∈ ((⟨"Untitled Poster", [], "Unknown University", "Unknown Department",
        defaultTheme, [⟨some "section-a", some "A", none, some "2", some [], none, none⟩],
        defaultContact, "", "", []⟩ : PosterDoc)).sections, s.id.getD "" ≠ "") ∧
    (((⟨"Untitled Poster", [], "Unknown University", "Unknown Department",
        defaultTheme, [⟨some "section-a", some "A", none, some "2", some [], none, none⟩],
        defaultContact, "", "", []⟩ : PosterDoc).sections.map (fun s => s.id.getD "")) ++
      ((⟨"Untitled Poster", [], "Unknown University", "Unknown Department",
        defaultTheme, [⟨some "section-aa", some "B", none, some "2", some [], none, none⟩],
        defaultContact, "", "", []⟩ : PosterDoc).sections.map (fun s => s.id.getD ""))).Nodup :=
  claim_C9 (fun n => String.mk (List.replicate (2 * n + 1) 'a'))
    (fun n => String.mk (List.replicate (2 * n + 2) 'a'))
    { sections := some [{ title := some "A" }] }
    { sections := some [{ title := some "B" }] }
    ⟨"Untitled Poster", [], "Unknown University", "Unknown Department",
      defaultTheme, [⟨some "section-a", some "A", none, some "2", some [], none, none⟩],
      defaultContact, "", "", []⟩
    ⟨"Untitled Poster", [], "Unknown University", "Unknown Department",
      defaultTheme, [⟨some "section-aa", some "B", none, some "2", some [], none, none⟩],
      defaultContact, "", "", []⟩
    (by decide) (by decide)
    (fun i j hij => by
      have h' : 2 * i + 1 = 2 * j + 1 := by
        simpa using congrArg (fun s : String => s.data.length) hij
      omega)
    (fun i j hij => by
      have h' : 2 * i + 2 = 2 * j + 2 := by
        simpa using congrArg (fun s : String => s.data.length) hij
      omega)
    (fun i j hij => by
      have h' : 2 * i + 1 = 2 * j + 2 := by
        simpa using congrArg (fun s : String => s.data.length) hij
      omega)
    rfl rfl

/-- A nonempty string literal is truthy. -/
theorem jTruthy_jstr (s : String) (h : s ≠ "") : jTruthy (JVal.jstr s) = true := by
  simp [jTruthy, h]

/-- Under a string-null-or-absent title the column step does not throw and
returns exactly `"1"` or `"2"`, or the already-clean stripped value. -/
theorem sanitizeColumnL_ok (column title : Option JVal)
    (h : title = none ∨ title = some JVal.jnull ∨ ∃ t, title = some (JVal.jstr t)) :
    ∃ c, sanitizeColumnL column title = .ok c ∧ (c = "1" ∨ c = "2") := by
  unfold sanitizeColumnL
  dsimp only
  by_cases hc : String.mk (trimChars (stripColumnWord (jToStringU column).data)) = "1" ∨
      String.mk (trimChars (stripColumnWord (jToStringU column).data)) = "2"
  · exact ⟨_, by rw [if_pos hc], hc⟩
  · rw [if_neg hc]
    rcases h with h | h | ⟨t, h⟩ <;> rw [h] <;> dsimp only
    · by_cases hk : titleKeyword none = true
      · exact ⟨"1", by rw [if_pos hk], Or.inl rfl⟩
      · exact ⟨"2", by rw [if_neg hk], Or.inr rfl⟩
    · by_cases hk : titleKeyword none = true
      · exact ⟨"1", by rw [if_pos hk], Or.inl rfl⟩
      · exact ⟨"2", by rw [if_neg hk], Or.inr rfl⟩
    · by_cases hk : titleKeyword (some t) = true
      · exact ⟨"1", by rw [if_pos hk], Or.inl rfl⟩
      · exact ⟨"2", by rw [if_neg hk], Or.inr rfl⟩

/-- With no singular visual and array-or-absent visuals, the visual
migration does not throw and yields an array. -/
theorem normVisualsL_none (visuals : Option JVal)
    (h : visuals = none ∨ ∃ l, visuals = some (JVal.jarr l)) :
    ∃ l2, normVisualsL none visuals = .ok (none, JVal.jarr l2) := by
  rcases h with h | ⟨l, h⟩ <;> subst h
  · exact ⟨[], rfl⟩
  · exact ⟨l, rfl⟩

/-- The generation-2 per-section step on a tame section: no throw, the
output is normalized, and title and content are preserved. -/
theorem lSectionStep_tame (gen : Nat → String) (n : Nat) (s0 : LSection)
    (h : TameLSec s0) :
    ∃ s n2, UseHistory.lSectionStep gen n s0 = .ok (s, n2) ∧ LSanitized s ∧
      s.title = s0.title ∧ s.content = s0.content := by
  obtain ⟨sid, stitle, scontent, scolumn, svisual, svisuals⟩ := s0
  obtain ⟨ht, ⟨c, hc⟩, hv, hvs⟩ := h
  dsimp only at ht hc hv hvs
  subst hv
  subst hc
  obtain ⟨col, hcol, h12⟩ := sanitizeColumnL_ok scolumn stitle ht
  obtain ⟨l2, hnv⟩ := normVisualsL_none svisuals hvs
  unfold UseHistory.lSectionStep
  dsimp only at hcol hnv ⊢
  rcases hid : jTruthyO sid with _ | _
  · rw [if_neg (Bool.false_ne_true)]
    dsimp only
    rw [hcol]
    dsimp only
    rw [hnv]
    dsimp only
    refine ⟨_, _, rfl, ⟨⟨JVal.jstr (UseHistory.mkId (gen n)), rfl,
      jTruthy_jstr _ (mkId_ne_empty (gen n))⟩, ?_, ⟨l2, rfl⟩, rfl, ⟨c, rfl⟩⟩, rfl, rfl⟩
    rcases h12 with h | h <;> rw [h]
    · exact Or.inl rfl
    · exact Or.inr rfl
  · rw [if_pos (rfl : (true : Bool) = true)]
    dsimp only
    rw [hcol]
    dsimp only
    rw [hnv]
    dsimp only
    have hsome : ∃ iv, sid = some iv ∧ jTruthy iv = true := by
      rcases sid with _ | iv
      · exact absurd hid Bool.false_ne_true
      · exact ⟨iv, rfl, hid⟩
    obtain ⟨iv, hiv, hivt⟩ := hsome
    refine ⟨_, _, rfl, ⟨⟨iv, by rw [hiv], hivt⟩, ?_, ⟨l2, rfl⟩, rfl, ⟨c, rfl⟩⟩, rfl, rfl⟩
    rcases h12 with h | h <;> rw [h]
    · exact Or.inl rfl
    · exact Or.inr rfl

/-- The `Map` key of a tame-titled section exists. -/
theorem normKeyL_tame (s : LSection)
    (h : s.title = none ∨ s.title = some JVal.jnull ∨ ∃ t, s.title = some (JVal.jstr t)) :
    ∃ k, UseHistory.normKeyL s = .ok k := by
  unfold UseHistory.normKeyL
  rcases h with h | h | ⟨t, h⟩ <;> rw [h]
  · exact ⟨none, rfl⟩
  · exact ⟨none, rfl⟩
  · exact ⟨some (normTitle t), rfl⟩

/-- The content merge of two normalized sections does not throw and keeps
a string content. -/
theorem lMergeContent_tame (e s : LSection) (ec c : String)
    (he : e.content = some (JVal.jstr ec)) (hs : s.content = some (JVal.jstr c)) :
    ∃ c2, UseHistory.lMergeContent e s = .ok (some (JVal.jstr c2)) := by
  unfold UseHistory.lMergeContent
  rw [hs, he]
  dsimp only
  by_cases hc0 : jTruthy (JVal.jstr c) = true
  · rw [if_pos hc0]
    by_cases hinc : strContains ec (String.mk (c.data.take 50)) = true
    · exact ⟨ec, by rw [if_pos hinc]⟩
    · exact ⟨ec ++ "\n\n" ++ c, by rw [if_neg hinc]⟩
  · rw [if_neg hc0]
    exact ⟨ec, rfl⟩

/-- Merging a normalized duplicate into a normalized retained section does
not throw and keeps the retained section normalized. -/
theorem lMergeSections_tame (e s : LSection)
    (hse : LSanitized e) (hss : LSanitized s) :
    ∃ e2, UseHistory.lMergeSections e s = .ok e2 ∧ LSanitized e2 := by
  obtain ⟨hie, hce, ⟨le, hle⟩, hve, ⟨ec, hec⟩⟩ := hse
  obtain ⟨his, hcs, ⟨ls, hls⟩, hvs, ⟨sc, hsc⟩⟩ := hss
  obtain ⟨c2, hmc⟩ := lMergeContent_tame e s ec sc hec hsc
  unfold UseHistory.lMergeSections
  rw [hmc]
  dsimp only
  rw [hls]
  dsimp only
  by_cases hlen : (jTruthy (JVal.jarr ls) && jLenPos (JVal.jarr ls)) = true
  · rw [if_pos hlen]
    rw [hle]
    rw [show jOrEmptySpread (some (JVal.jarr le)) = .ok le from rfl]
    rw [show jSpread (JVal.jarr ls) = .ok ls from rfl]
    dsimp only
    exact ⟨_, rfl, hie, hce, ⟨le ++ ls, rfl⟩, hve, ⟨c2, rfl⟩⟩
  · rw [if_neg hlen]
    exact ⟨_, rfl, hie, hce, ⟨le, hle⟩, hve, ⟨c2, rfl⟩⟩

/-- Unfolding equation for the cons case of `lInsert`. -/
theorem lInsert_cons (k : Option String) (s : LSection) (k2 : Option String)
    (e : LSection) (rest : List (Option String × LSection)) :
    UseHistory.lInsert k s ((k2, e) :: rest) =
      (if k2 = k then
        match UseHistory.lMergeSections e s with
        | .error u => .error u
        | .ok e2 => .ok ((k2, e2) :: rest)
      else
        match UseHistory.lInsert k s rest with
        | .error u => .error u
        | .ok r => .ok ((k2, e) :: r)) := rfl

/-- Inserting a normalized section into a list of normalized sections
does not throw and keeps every section normalized. -/
theorem lInsert_tame (k : Option String) (s : LSection) (hs : LSanitized s) :
    ∀ acc : List (Option String × LSection), (∀ p ∈ acc, LSanitized p.2) →
    ∃ acc2, UseHistory.lInsert k s acc = .ok acc2 ∧ ∀ p ∈ acc2, LSanitized p.2 := by
  intro acc
  induction acc with
  | nil =>
    intro _
    refine ⟨[(k, s)], rfl, ?_⟩
    intro p hp
    rw [List.mem_singleton] at hp
    rw [hp]
    exact hs
  | cons a rest ih =>
    intro hall
    obtain ⟨k2, e⟩ := a
    have he : LSanitized e := hall (k2, e) (List.mem_cons_self _ _)
    have hrest : ∀ p ∈ rest, LSanitized p.2 := fun p hp => hall p (List.mem_cons_of_mem _ hp)
    rw [lInsert_cons]
    by_cases hk : k2 = k
    · rw [if_pos hk]
      obtain ⟨e2, hme, he2⟩ := lMergeSections_tame e s he hs
      rw [hme]
      refine ⟨(k2, e2) :: rest, rfl, ?_⟩
      intro p hp
      rcases List.mem_cons.1 hp with hp | hp
      · rw [hp]; exact he2
      · exact hrest p hp
    · rw [if_neg hk]
      obtain ⟨r, hr, hrs⟩ := ih hrest
      rw [hr]
      refine ⟨(k2, e) :: r, rfl, ?_⟩
      intro p hp
      rcases List.mem_cons.1 hp with hp | hp
      · rw [hp]; exact he
      · exact hrs p hp

/-- Unfolding equation for the cons case of `lLoop`. -/
theorem lLoop_cons (gen : Nat → String) (n : Nat)
    (acc : List (Option String × LSection)) (e : JVal) (rest : List JVal) :
    UseHistory.lLoop gen n acc (e :: rest) =
      (match readLSection e with
       | .error u => .error u
       | .ok s0 =>
         match UseHistory.lSectionStep gen n s0 with
         | .error u => .error u
         | .ok (s, n2) =>
           match UseHistory.normKeyL s with
           | .error u => .error u
           | .ok k =>
             match UseHistory.lInsert k s acc with
             | .error u => .error u
             | .ok acc2 => UseHistory.lLoop gen n2 acc2 rest) := rfl

/-- The generation-2 `forEach` over tame raw elements does not throw and
yields only normalized sections. -/
theorem lLoop_tame (gen : Nat → String) : ∀ (elems : List JVal) (n : Nat)
    (acc : List (Option String × LSection)),
    (∀ e ∈ elems, TameSection e) → (∀ p ∈ acc, LSanitized p.2) →
    ∃ out, UseHistory.lLoop gen n acc elems = .ok out ∧ ∀ p ∈ out, LSanitized p.2 := by
  intro elems
  induction elems with
  | nil =>
    intro n acc _ hacc
    exact ⟨acc, rfl, hacc⟩
  | cons e rest ih =>
    intro n acc htame hacc
    obtain ⟨s0, hrd, htm⟩ := htame e (List.mem_cons_self e rest)
    obtain ⟨s, n2, hstep, hsan, hti, hco⟩ := lSectionStep_tame gen n s0 htm
    obtain ⟨k, hk⟩ := normKeyL_tame s (by rw [hti]; exact htm.1)
    obtain ⟨acc2, hins, hacc2⟩ := lInsert_tame k s hsan acc hacc
    obtain ⟨out, hloop, hout⟩ := ih n2 acc2
      (fun x hx => htame x (List.mem_cons_of_mem e hx)) hacc2
    refine ⟨out, ?_, hout⟩
    rw [lLoop_cons, hrd]
    dsimp only
    rw [hstep]
    dsimp only
    rw [hk]
    dsimp only
    rw [hins]
    dsimp only
    exact hloop

/-- C5 counterexample: the generation-2 normalizer is not total over
parsed values even when every section carries a content string — a
present non-string section title throws at
`section.title?.toLowerCase()`/`?.trim()` (optional chaining only guards
nullish values); a present `null` top-level field survives the spread
`\x7b...defaultData, ...data\x7d` in place of the default; and the
generation-1 normalizer fills no defaults at all: on the empty object it
returns the empty object, title still absent. -/
theorem claim_C5_counterexample :
    UseHistory.sanitizeDataL (fun _ => "g5")
      (JVal.jobj [("sections", JVal.jarr [JVal.jobj
        [("title", JVal.jnum "7"), ("content", JVal.jstr "x")]])]) = .error () ∧
    (UseHistory.sanitizeDataL (fun _ => "g5")
      (JVal.jobj [("title", JVal.jnull)])).map (fun d => d.title) = .ok JVal.jnull ∧
    UseHistory.sanitizeDataL (fun _ => "g5")
      (JVal.jobj [("sections", JVal.jarr
        [JVal.jobj [("title", JVal.jstr "A")],
         JVal.jobj [("title", JVal.jstr "A"), ("content", JVal.jstr "x")]])]) = .error () ∧
    GeminiService.sanitizeDataL (JVal.jobj []) = .ok (JVal.jobj []) :=
  ⟨rfl, rfl, rfl, rfl⟩

/-- C5 (amended): the generation-2 `sanitizeData` (`useHistory.ts`)
returns without error a document with every schema field present — absent
fields replaced by the fixed defaults — for every falsy or non-object
input (the guard returns `defaultData` whole) and for every object input
whose section elements are tame: objects whose title is a string, null or
absent, whose content is a string, with no singular `visual` and
array-or-absent `visuals`; every output section then has a truthy id, a
`"1"`/`"2"` column, array visuals, and string content.  Outside that
fragment normalization can throw (non-string titles or contents,
content-less retained duplicates — see the counterexample), present null
fields survive in place of defaults, and the generation-1 `sanitizeData`
fills no defaults at all. -/
theorem claim_C5 (gen : Nat → String) (fs : List (String × JVal))
    (hsec : ∀ e ∈ (match jLookup fs "sections" with
      | some (JVal.jarr l) => l
      | _ => []), TameSection e) :
    (∃ out : LDoc, UseHistory.sanitizeDataL gen (JVal.jobj fs) = .ok out ∧
      out.title = (jLookup fs "title").getD (JVal.jstr "Untitled Poster") ∧
      out.authors = (jLookup fs "authors").getD (JVal.jarr []) ∧
      out.university = (jLookup fs "university").getD (JVal.jstr "Unknown University") ∧
      out.department = (jLookup fs "department").getD (JVal.jstr "Unknown Department") ∧
      (jLookup fs "theme" = none → out.theme = defaultThemeJ) ∧
      (jLookup fs "contactInfo" = none → out.contactInfo = defaultContactJ) ∧
      out.leftLogoUrl = (jLookup fs "leftLogoUrl").getD (JVal.jstr "") ∧
      out.rightLogoUrl = (jLookup fs "rightLogoUrl").getD (JVal.jstr "") ∧
      out.warnings = (jLookup fs "warnings").getD (JVal.jarr []) ∧
      (∀ s ∈ out.sections, LSanitized s)) ∧
    (∀ v : JVal, (jTruthy v && jIsObjectType v) = false →
      UseHistory.sanitizeDataL gen v = .ok defaultLDoc) := by
  constructor
  · obtain ⟨out, hloop, hsan⟩ := lLoop_tame gen _ 0 [] hsec
      (fun p hp => absurd hp (List.not_mem_nil p))
    unfold UseHistory.sanitizeDataL
    have hguard : (jTruthy (JVal.jobj fs) && jIsObjectType (JVal.jobj fs)) = true := by rfl
    rw [hguard, if_pos rfl]
    dsimp only [lookJ]
    rw [hloop]
    dsimp only
    refine ⟨_, rfl, rfl, rfl, rfl, rfl, ?_, ?_, rfl, rfl, rfl, ?_⟩
    · intro h; rw [h]
    · intro h; rw [h]
    · intro s hs
      obtain ⟨p, hp, hps⟩ := List.mem_map.1 hs
      rw [← hps]
      exact hsan p hp
  · intro v hv
    unfold UseHistory.sanitizeDataL
    rw [hv, if_neg Bool.false_ne_true]

/-- Witness for C5 on the empty object (and the guard conjunct). -/
theorem claim_C5_witness :
    (∃ out : LDoc, UseHistory.sanitizeDataL (fun _ => "w5") (JVal.jobj []) = .ok out ∧
      out.title = (jLookup [] "title").getD (JVal.jstr "Untitled Poster") ∧
      out.authors = (jLookup [] "authors").getD (JVal.jarr []) ∧
      out.university = (jLookup [] "university").getD (JVal.jstr "Unknown University") ∧
      out.department = (jLookup [] "department").getD (JVal.jstr "Unknown Department") ∧
      (jLookup [] "theme" = none → out.theme = defaultThemeJ) ∧
      (jLookup [] "contactInfo" = none → out.contactInfo = defaultContactJ) ∧
      out.leftLogoUrl = (jLookup [] "leftLogoUrl").getD (JVal.jstr "") ∧
      out.rightLogoUrl = (jLookup [] "rightLogoUrl").getD (JVal.jstr "") ∧
      out.warnings = (jLookup [] "warnings").getD (JVal.jarr []) ∧
      (∀ s ∈ out.sections, LSanitized s)) ∧
    (∀ v : JVal, (jTruthy v && jIsObjectType v) = false →
      UseHistory.sanitizeDataL (fun _ => "w5") v = .ok defaultLDoc) :=
  claim_C5 (fun _ => "w5") [] (fun e he => absurd he (List.not_mem_nil e))

/-- C8 counterexample: in BOTH generations, inputs on which the strict
first parse SUCCEEDS can still end in the diagnostic: the `try` wraps
`sanitizeData` together with `JSON.parse`, a non-string section title (or
a content-less retained duplicate) makes sanitization throw, the repair
rewrites then run on already-valid text, and the second sanitize throws
again.  The repair pass is therefore not confined to strict-parse
failures, in either generation. -/
theorem claim_C8_counterexample :
    (jsonParse (GeminiService.extractBalancedJSON (cleanFences
      "\x7b\"sections\":[\x7b\"title\":7\x7d]\x7d"))).isSome = true ∧
    GeminiService.parseJsonResponse "\x7b\"sections\":[\x7b\"title\":7\x7d]\x7d" =
      .error parseErrorMessage ∧
    (jsonParse (UseHistory.extractBalancedJSON (cleanFences
      "\x7b\"sections\":[\x7b\"title\":\"A\"\x7d,\x7b\"title\":\"A\",\"content\":\"x\"\x7d]\x7d"))).isSome
      = true ∧
    UseHistory.parseJsonResponse (fun _ => "g8")
      "\x7b\"sections\":[\x7b\"title\":\"A\"\x7d,\x7b\"title\":\"A\",\"content\":\"x\"\x7d]\x7d" =
      .error parseErrorMessage := by
  exact ⟨by decide, rfl, by decide, rfl⟩

/-- C8 (amended): both `parseJsonResponse` versions always return
normally — a document or the single fixed diagnostic, never a partial
document — and attempt at most one repair-and-reparse cycle: when the
first parse and sanitize both succeed the result is returned directly,
and when both parses fail the diagnostic is returned.  In BOTH
generations the `try` wraps `sanitizeData` too, so the repair rewrites
also run when the strict parse succeeded but sanitization threw (see the
counterexample); "rewrites only after a strict-parse failure" holds in
neither generation. -/
theorem claim_C8 :
    (∀ t : String, (∃ d, GeminiService.parseJsonResponse t = .ok d) ∨
      GeminiService.parseJsonResponse t = .error parseErrorMessage) ∧
    (∀ (gen : Nat → String) (t : String),
      (∃ d, UseHistory.parseJsonResponse gen t = .ok d) ∨
      UseHistory.parseJsonResponse gen t = .error parseErrorMessage) ∧
    (∀ (t : String) (v d : JVal),
      jsonParse (GeminiService.extractBalancedJSON (cleanFences t)) = some v →
      GeminiService.sanitizeDataL v = .ok d →
      GeminiService.parseJsonResponse t = .ok d) ∧
    (∀ (gen : Nat → String) (t : String) (v : JVal) (d : LDoc),
      jsonParse (UseHistory.extractBalancedJSON (cleanFences t)) = some v →
      UseHistory.sanitizeDataL gen v = .ok d →
      UseHistory.parseJsonResponse gen t = .ok d) ∧
    (∀ t : String,
      jsonParse (GeminiService.extractBalancedJSON (cleanFences t)) = none →
      jsonParse (fixText knownKeysG (GeminiService.extractBalancedJSON (cleanFences t))) = none →
      GeminiService.parseJsonResponse t = .error parseErrorMessage) ∧
    (∀ (gen : Nat → String) (t : String),
      jsonParse (UseHistory.extractBalancedJSON (cleanFences t)) = none →
      jsonParse (fixText knownKeysH (UseHistory.extractBalancedJSON (cleanFences t))) = none →
      UseHistory.parseJsonResponse gen t = .error parseErrorMessage) := by
  refine ⟨?_, ?_, ?_, ?_, ?_, ?_⟩
  · intro t
    unfold GeminiService.parseJsonResponse
    rcases h1 : jsonParse (GeminiService.extractBalancedJSON (cleanFences t)) with _ | v
    · dsimp only
      rcases h2 : jsonParse (fixText knownKeysG (GeminiService.extractBalancedJSON (cleanFences t)))
        with _ | v2
      · right; rfl
      · dsimp only
        rcases h3 : GeminiService.sanitizeDataL v2 with u | d
        · right; rfl
        · left; exact ⟨d, rfl⟩
    · dsimp only
      rcases h2 : GeminiService.sanitizeDataL v with u | d
      · dsimp only
        rcases h3 : jsonParse (fixText knownKeysG (GeminiService.extractBalancedJSON (cleanFences t)))
          with _ | v2
        · right; rfl
        · dsimp only
          rcases h4 : GeminiService.sanitizeDataL v2 with u2 | d2
          · right; rfl
          · left; exact ⟨d2, rfl⟩
      · left; exact ⟨d, rfl⟩
  · intro gen t
    unfold UseHistory.parseJsonResponse
    rcases h1 : jsonParse (UseHistory.extractBalancedJSON (cleanFences t)) with _ | v
    · dsimp only
      rcases h2 : jsonParse (fixText knownKeysH (UseHistory.extractBalancedJSON (cleanFences t)))
        with _ | v2
      · right; rfl
      · dsimp only
        rcases h3 : UseHistory.sanitizeDataL gen v2 with u | d
        · right; rfl
        · left; exact ⟨d, rfl⟩
    · dsimp only
      rcases h2 : UseHistory.sanitizeDataL gen v with u | d
      · dsimp only
        rcases h3 : jsonParse (fixText knownKeysH (UseHistory.extractBalancedJSON (cleanFences t)))
          with _ | v2
        · right; rfl
        · dsimp only
          rcases h4 : UseHistory.sanitizeDataL gen v2 with u2 | d2
          · right; rfl
          · left; exact ⟨d2, rfl⟩
      · left; exact ⟨d, rfl⟩
  · intro t v d h1 h2
    unfold GeminiService.parseJsonResponse
    rw [h1]
    dsimp only
    rw [h2]
  · intro gen t v d h1 h2
    unfold UseHistory.parseJsonResponse
    rw [h1]
    dsimp only
    rw [h2]
  · intro t h1 h2
    unfold GeminiService.parseJsonResponse
    rw [h1]
    dsimp only
    rw [h2]
  · intro gen t h1 h2
    unfold UseHistory.parseJsonResponse
    rw [h1]
    dsimp only
    rw [h2]

/-- Witness for C8: the happy path of both generations on the concrete
input `\x7b"title": "T"\x7d`. -/
theorem claim_C8_witness :
    GeminiService.parseJsonResponse "\x7b\"title\": \"T\"\x7d" =
      .ok (JVal.jobj [("title", JVal.jstr "T")]) ∧
    UseHistory.parseJsonResponse (fun _ => "w8") "\x7b\"title\": \"T\"\x7d" =
      .ok ⟨JVal.jstr "T", JVal.jarr [], JVal.jstr "Unknown University",
        JVal.jstr "Unknown Department", defaultThemeJ, [], defaultContactJ,
        JVal.jstr "", JVal.jstr "", JVal.jarr []⟩ :=
  ⟨claim_C8.2.2.1 "\x7b\"title\": \"T\"\x7d" (JVal.jobj [("title", JVal.jstr "T")])
    (JVal.jobj [("title", JVal.jstr "T")]) rfl rfl,
   claim_C8.2.2.2.1 (fun _ => "w8") "\x7b\"title\": \"T\"\x7d"
    (JVal.jobj [("title", JVal.jstr "T")])
    ⟨JVal.jstr "T", JVal.jarr [], JVal.jstr "Unknown University",
      JVal.jstr "Unknown Department", defaultThemeJ, [], defaultContactJ,
      JVal.jstr "", JVal.jstr "", JVal.jarr []⟩ rfl rfl⟩
